import Mathlib

/-! # QtRvSim command-line front end (`src/cli/main.cpp`)

A shallow embedding of the option handling of the CLI simulator front end:
`configure_cache`, `parse_u32_option`, `configure_machine`, `configure_tracer`,
`configure_reporter`, `configure_serial_port`, `configure_osemu` and `load_ranges`.

Conventions of the embedding.

* A `QString` is a list of characters; only the operations used by `main.cpp`
  are modelled (`split`, `toLower`, `indexOf`, `mid`, the integer conversions).
* `QCoreApplication::exit(1)` only asks the event loop to stop: it returns to
  the caller and the function goes on.  Every call is recorded, with the message
  printed just before it, in a list of reported errors.
* An access outside the bounds of a container (`QList::at`, `QString::at`,
  `std::array::at`) or an uncaught C++ exception stops the run; the run records
  it as a fault together with the state reached so far.
-/

namespace QtRvSim

/-! ## Strings -/

/-- A `QString`, as the list of its characters. -/
abbrev QString := List Char

/-- The C classification `isspace` on ASCII: space, `\t`, `\n`, `\v`, `\f`, `\r`. -/
def isSpace (c : Char) : Bool :=
  c.toNat == 32 || (9 ≤ c.toNat && c.toNat ≤ 13)

/-- The test `QChar::isDigit`, on ASCII. -/
def isDigit (c : Char) : Bool :=
  48 ≤ c.toNat && c.toNat ≤ 57

/-- The function `QString::toLower`, on ASCII. -/
def toLower (s : QString) : QString :=
  s.map Char.toLower

/-- The call `QString::split(",")`: the fields between commas, empty ones kept. -/
def split : QString → List QString
  | [] => [[]]
  | c :: cs =>
    if c = ',' then [] :: split cs
    else
      match split cs with
      | [] => [[c]]
      | p :: ps => (c :: p) :: ps

/-- Value of a character as a digit (`0-9`, `a-z`, `A-Z`). -/
def digitValue (c : Char) : Option Nat :=
  if 48 ≤ c.toNat ∧ c.toNat ≤ 57 then some (c.toNat - 48)
  else if 97 ≤ c.toNat ∧ c.toNat ≤ 122 then some (c.toNat - 87)
  else if 65 ≤ c.toNat ∧ c.toNat ≤ 90 then some (c.toNat - 55)
  else none

/-- Value of a string made only of digits of the given base, from an accumulator. -/
def digitsValue (base : Nat) : List Char → Nat → Option Nat
  | [], acc => some acc
  | c :: cs, acc =>
    match digitValue c with
    | some d => if d < base then digitsValue base cs (acc * base + d) else none
    | none => none

/-- Value of a non-empty string made only of digits of the given base. -/
def parseNat (base : Nat) (s : List Char) : Option Nat :=
  match s with
  | [] => none
  | _ :: _ => digitsValue base s 0

/-- Surrounding white space removed, as Qt's number conversions do. -/
def trimSpaces (s : List Char) : List Char :=
  ((s.dropWhile isSpace).reverse.dropWhile isSpace).reverse

/-- The C convention for base 0: `0x`/`0X` announces base 16, a leading `0` base 8,
anything else base 10.  A given base 16 also accepts the `0x` prefix. -/
def detectBase (base : Nat) (s : List Char) : Nat × List Char :=
  match base, s with
  | 0, '0' :: 'x' :: r => (16, r)
  | 0, '0' :: 'X' :: r => (16, r)
  | 0, '0' :: r => (8, '0' :: r)
  | 0, r => (10, r)
  | 16, '0' :: 'x' :: r => (16, r)
  | 16, '0' :: 'X' :: r => (16, r)
  | b, r => (b, r)

/-- Magnitude of an unsigned numeral in the given base (0: C convention). -/
def parseMagnitude (base : Nat) (s : List Char) : Option Nat :=
  parseNat (detectBase base s).1 (detectBase base s).2

/-- Qt's conversion to an unsigned 64-bit integer: white space around the number
is ignored, a `+` sign is accepted, a `-` sign is not; the whole text has to be
a number and the value has to fit. -/
def qstrtoull (base : Nat) (s : QString) : Option Nat :=
  let body := match trimSpaces s with
    | '+' :: r => r
    | r => r
  match parseMagnitude base body with
  | some v => if v < 2 ^ 64 then some v else none
  | none => none

/-- Qt's conversion to a signed 64-bit integer. -/
def qstrtoll (base : Nat) (s : QString) : Option Int :=
  match trimSpaces s with
  | '-' :: r =>
    match parseMagnitude base r with
    | some v => if v ≤ 2 ^ 63 then some (-(v : Int)) else none
    | none => none
  | '+' :: r =>
    match parseMagnitude base r with
    | some v => if v < 2 ^ 63 then some (v : Int) else none
    | none => none
  | r =>
    match parseMagnitude base r with
    | some v => if v < 2 ^ 63 then some (v : Int) else none
    | none => none

/-- The call `QString::toLong()`: base 10, and 0 when the conversion fails. -/
def toLong (s : QString) : Int :=
  (qstrtoll 10 s).getD 0

/-- The call `QString::toULong(&ok, base)`; `none` stands for `ok == false`. -/
def toULong (s : QString) (base : Nat) : Option Nat :=
  qstrtoull base s

/-- The call `QString::toUInt(&ok)`: base 10, at most `2^32 - 1`. -/
def toUInt (s : QString) : Option Nat :=
  match qstrtoull 10 s with
  | some v => if v < 2 ^ 32 then some v else none
  | none => none

/-- The call `QString::toInt(&ok)`: base 10, within the range of `int`. -/
def toInt (s : QString) : Option Int :=
  match qstrtoll 10 s with
  | some v => if -(2 ^ 31 : Int) ≤ v ∧ v < 2 ^ 31 then some v else none
  | none => none

/-- Conversion of a signed value to `unsigned` (32 bits). -/
def toUnsigned (v : Int) : Nat :=
  (v % (2 ^ 32 : Int)).toNat

/-- Conversion of a signed value to `size_t` (64 bits). -/
def toSizeT (v : Int) : Nat :=
  (v % (2 ^ 64 : Int)).toNat

/-! ## Cache configuration (`configure_cache`) -/

/-- Replacement policies of `CacheConfig`. -/
inductive ReplacementPolicy where
  | RP_RAND
  | RP_LRU
  | RP_LFU
  deriving DecidableEq, Repr

/-- Write policies of `CacheConfig`. -/
inductive WritePolicy where
  | WP_THROUGH_NOALLOC
  | WP_THROUGH_ALLOC
  | WP_BACK
  deriving DecidableEq, Repr

/-- Modelled from the spec: `CacheConfig` of `machine/machineconfig.h`, which is not
among the sources.  One field per setter that `configure_cache` calls; a setter
stores its argument and the getter of the same name reads it back.  The three
sizes are `unsigned`. -/
structure CacheConfig where
  enabled : Bool
  set_count : Nat
  block_size : Nat
  associativity : Nat
  replacement_policy : ReplacementPolicy
  write_policy : WritePolicy
  deriving DecidableEq, Repr

/-- The messages `configure_cache` prints before `QCoreApplication::exit(1)`. -/
inductive CacheError where
  /-- Message "Parameters %s cache incorrect (correct lru,4,2,2,wb)." (line 89) -/
  | parameters_incorrect
  /-- Message "Policy for %s cache is incorrect." for an empty first field (line 93) -/
  | policy_empty
  /-- Message "Policy for %s cache is incorrect." for an unknown policy name (line 104) -/
  | policy_incorrect
  /-- Message "Parameters for  %s  cache incorrect (correct lru,4,2,2,wb)." (line 111) -/
  | parameters_incorrect_after_policy
  /-- Message "Parameters for  %s  cache cannot have zero component." (line 121) -/
  | zero_component
  /-- Message "Write policy for  %s  cache is incorrect (correct wb/wt/wtna/wta)." (line 133) -/
  | write_policy_incorrect
  deriving DecidableEq, Repr

/-- The container accesses of `configure_cache` that can leave the bounds. -/
inductive CacheFault where
  /-- Access `pieces.at(0).at(0)` on an empty first field (line 96) -/
  | first_char
  /-- Access `pieces.at(i)` with `i ≥ pieces.size()` (lines 115 to 117) -/
  | pieces_at (i : Nat)
  deriving DecidableEq, Repr

/-- State of a run of `configure_cache`: the configuration written so far, the
errors reported so far (oldest first) and the out-of-bounds access that stopped
the run, if any. -/
structure CacheRun where
  conf : CacheConfig
  errors : List CacheError
  fault : Option CacheFault
  deriving DecidableEq, Repr

/-- Lines 96 to 108: a first field that does not start with a digit names the
replacement policy and is removed from `pieces`.  `p0` is `pieces.at(0)` and
`c0` its first character. -/
def cache_policy (conf : CacheConfig) (errors : List CacheError) (c0 : Char) (p0 : QString)
    (pieces : List QString) : CacheConfig × List CacheError × List QString :=
  if !isDigit c0 then
    if toLower p0 = "random".toList then
      ({ conf with replacement_policy := .RP_RAND }, errors, pieces.tail)
    else if toLower p0 = "lru".toList then
      ({ conf with replacement_policy := .RP_LRU }, errors, pieces.tail)
    else if toLower p0 = "lfu".toList then
      ({ conf with replacement_policy := .RP_LFU }, errors, pieces.tail)
    else
      (conf, errors ++ [.policy_incorrect], pieces.tail)
  else
    (conf, errors, pieces)

/-- Lines 124 to 137: the optional write policy in the fourth field. -/
def cache_write_policy (conf : CacheConfig) (errors : List CacheError)
    (pieces : List QString) : CacheRun :=
  match pieces with
  | _ :: _ :: _ :: p3 :: _ =>
    if toLower p3 = "wb".toList then
      ⟨{ conf with write_policy := .WP_BACK }, errors, none⟩
    else if toLower p3 = "wt".toList ∨ toLower p3 = "wtna".toList then
      ⟨{ conf with write_policy := .WP_THROUGH_NOALLOC }, errors, none⟩
    else if toLower p3 = "wta".toList then
      ⟨{ conf with write_policy := .WP_THROUGH_ALLOC }, errors, none⟩
    else
      ⟨conf, errors ++ [.write_policy_incorrect], none⟩
  | _ => ⟨conf, errors, none⟩

/-- Lines 109 to 137: the three sizes, the zero check and the write policy.
`pieces` is the list after the policy name has been removed. -/
def cache_geometry (conf : CacheConfig) (errors : List CacheError)
    (pieces : List QString) : CacheRun :=
  let errors := if pieces.length < 3 then errors ++ [.parameters_incorrect_after_policy] else errors
  match pieces with
  | [] => ⟨conf, errors, some (.pieces_at 0)⟩
  | [p0] => ⟨{ conf with set_count := toUnsigned (toLong p0) }, errors, some (.pieces_at 1)⟩
  | [p0, p1] =>
    ⟨{ conf with set_count := toUnsigned (toLong p0), block_size := toUnsigned (toLong p1) },
      errors, some (.pieces_at 2)⟩
  | p0 :: p1 :: p2 :: _ =>
    let conf := { conf with
      set_count := toUnsigned (toLong p0)
      block_size := toUnsigned (toLong p1)
      associativity := toUnsigned (toLong p2) }
    let errors :=
      if conf.set_count = 0 ∨ conf.block_size = 0 ∨ conf.associativity = 0 then
        errors ++ [.zero_component]
      else errors
    cache_write_policy conf errors pieces

/-- The function `configure_cache` (lines 83 to 138).  `cachearg` holds the values
given for the option, in command-line order; the last one is used. -/
def configure_cache (cacheconf : CacheConfig) (cachearg : List QString) : CacheRun :=
  match cachearg.getLast? with
  | none => ⟨cacheconf, [], none⟩
  | some arg =>
    let conf := { cacheconf with enabled := true }
    let pieces := split arg
    let errors : List CacheError := if pieces.length < 3 then [.parameters_incorrect] else []
    match pieces with
    | [] => ⟨conf, errors, some (.pieces_at 0)⟩
    | p0 :: _ =>
      let errors := if p0.length < 1 then errors ++ [.policy_empty] else errors
      match p0 with
      | [] => ⟨conf, errors, some .first_char⟩
      | c0 :: _ =>
        let r := cache_policy conf errors c0 p0 pieces
        cache_geometry r.1 r.2.1 r.2.2

/-! ## The command line (`create_parser`) -/

/-- The options declared by `create_parser` (lines 32 to 80), each under its first name. -/
inductive OptionName where
  | asm
  | pipelined
  | no_delay_slot
  | hazard_unit
  | trace_fetch
  | trace_decode
  | trace_execute
  | trace_memory
  | trace_writeback
  | trace_pc
  | trace_gp
  | dump_registers
  | dump_cache_stats
  | dump_cycles
  | dump_range
  | load_range
  | expect_fail
  | fail_match
  | d_cache
  | i_cache
  | read_time
  | write_time
  | burst_time
  | serial_in
  | serial_out
  | os_emulation
  | std_out
  | os_fs_root
  deriving DecidableEq, Repr

/-- A processed command line (`QCommandLineParser` after `process`): the positional
arguments and the options found, in command-line order, each with its value when
the option takes one. -/
structure QCommandLineParser where
  positionalArguments : List QString
  options : List (OptionName × Option QString)
  deriving DecidableEq, Repr

/-- The call `QCommandLineParser::isSet(name)`. -/
def QCommandLineParser.isSet (p : QCommandLineParser) (name : OptionName) : Bool :=
  p.options.any (fun o => o.1 = name)

/-- The call `QCommandLineParser::values(name)`: the values given, oldest first. -/
def QCommandLineParser.values (p : QCommandLineParser) (name : OptionName) : List QString :=
  p.options.filterMap (fun o => if o.1 = name then o.2 else none)

/-! ## Machine configuration (`parse_u32_option`, `configure_machine`) -/

/-- Hazard-unit kinds. -/
inductive HazardUnit where
  | HU_NONE
  | HU_STALL
  | HU_STALL_FORWARD
  deriving DecidableEq, Repr

/-- Modelled from the spec: `MachineConfig` of `machine/machineconfig.h`, which is not
among the sources.  One field per setter or getter that `main.cpp` calls; a setter
stores its argument. -/
structure MachineConfig where
  elf : QString
  delay_slot : Bool
  pipelined : Bool
  hazard_unit : HazardUnit
  memory_access_time_read : Nat
  memory_access_time_write : Nat
  memory_access_time_burst : Nat
  cache_data : CacheConfig
  cache_program : CacheConfig
  osemu_enable : Bool
  osemu_known_syscall_stop : Bool
  osemu_unknown_syscall_stop : Bool
  osemu_exception_stop : Bool
  osemu_fs_root : QString
  deriving DecidableEq, Repr

/-- The two caches `configure_machine` configures. -/
inductive CacheKind where
  | data
  | instruction
  deriving DecidableEq, Repr

/-- The messages `configure_machine` and its helpers print before
`QCoreApplication::exit(1)`. -/
inductive MachineError where
  /-- Message "Unknown kind of hazard unit specified" (line 176) -/
  | unknown_hazard_unit
  /-- Message "Value of option %s is not a valid unsigned integer." (line 155) -/
  | not_unsigned (option_name : OptionName)
  /-- An error reported by `configure_cache`. -/
  | cache (which : CacheKind) (e : CacheError)
  deriving DecidableEq, Repr

/-- What ends `configure_machine` before its last line. -/
inductive MachineStop where
  /-- Message "Single ELF file has to be specified", then `parser.showHelp()`,
  which prints the help and exits the process (lines 164 to 167). -/
  | show_help
  /-- An out-of-bounds access inside `configure_cache`. -/
  | cache_fault (which : CacheKind) (f : CacheFault)
  deriving DecidableEq, Repr

/-- State of a run of `configure_machine`. -/
structure MachineRun where
  config : MachineConfig
  errors : List MachineError
  stop : Option MachineStop
  deriving DecidableEq, Repr

/-- The function `parse_u32_option` (lines 140 to 160).  `setter` is the member
function given as the last argument. -/
def parse_u32_option (parser : QCommandLineParser) (option_name : OptionName)
    (config : MachineConfig) (setter : MachineConfig → Nat → MachineConfig) :
    MachineConfig × List MachineError :=
  match (parser.values option_name).getLast? with
  | none => (config, [])
  | some last =>
    match toUInt last with
    | some value => (setter config value, [])
    | none => (config, [.not_unsigned option_name])

/-- The setter `MachineConfig::set_memory_access_time_read`. -/
def MachineConfig.set_memory_access_time_read (c : MachineConfig) (v : Nat) : MachineConfig :=
  { c with memory_access_time_read := v }

/-- The setter `MachineConfig::set_memory_access_time_write`. -/
def MachineConfig.set_memory_access_time_write (c : MachineConfig) (v : Nat) : MachineConfig :=
  { c with memory_access_time_write := v }

/-- The setter `MachineConfig::set_memory_access_time_burst`. -/
def MachineConfig.set_memory_access_time_burst (c : MachineConfig) (v : Nat) : MachineConfig :=
  { c with memory_access_time_burst := v }

/-- Lines 173 to 179 of `configure_machine`: the hazard unit.  `set_hazard_unit`
stands for `MachineConfig::set_hazard_unit` (not among the sources): the kind a
name selects, `none` when it returns `false`. -/
def configure_hazard_unit (set_hazard_unit : QString → Option HazardUnit)
    (parser : QCommandLineParser) (config : MachineConfig) :
    MachineConfig × List MachineError :=
  match (parser.values .hazard_unit).getLast? with
  | none => (config, [])
  | some last =>
    match set_hazard_unit (toLower last) with
    | some hu => ({ config with hazard_unit := hu }, [])
    | none => (config, [.unknown_hazard_unit])

/-- Lines 170 to 183 of `configure_machine`: the flags, the hazard unit and the
three memory timings. -/
def configure_machine_timing (set_hazard_unit : QString → Option HazardUnit)
    (parser : QCommandLineParser) (config : MachineConfig) :
    MachineConfig × List MachineError :=
  let config := { config with delay_slot := !parser.isSet .no_delay_slot }
  let config := { config with pipelined := parser.isSet .pipelined }
  let r0 := configure_hazard_unit set_hazard_unit parser config
  let r1 := parse_u32_option parser .read_time r0.1 MachineConfig.set_memory_access_time_read
  let r2 := parse_u32_option parser .write_time r1.1 MachineConfig.set_memory_access_time_write
  let r3 := parse_u32_option parser .burst_time r2.1 MachineConfig.set_memory_access_time_burst
  (r3.1, r0.2 ++ r1.2 ++ r2.2 ++ r3.2)

/-- Lines 188 to 196 of `configure_machine`: the OS emulation settings. -/
def configure_machine_osemu (parser : QCommandLineParser) (config : MachineConfig) :
    MachineConfig :=
  let config := { config with osemu_enable := parser.isSet .os_emulation }
  let config := { config with osemu_known_syscall_stop := false }
  match (parser.values .os_fs_root).getLast? with
  | none => config
  | some osemu_fs_root =>
    if osemu_fs_root.length > 0 then { config with osemu_fs_root := osemu_fs_root } else config

/-- The function `configure_machine` (lines 162 to 197). -/
def configure_machine (set_hazard_unit : QString → Option HazardUnit)
    (parser : QCommandLineParser) (config : MachineConfig) : MachineRun :=
  match parser.positionalArguments with
  | [elf] =>
    let config := { config with elf := elf }
    let t := configure_machine_timing set_hazard_unit parser config
    let d := configure_cache t.1.cache_data (parser.values .d_cache)
    let config := { t.1 with cache_data := d.conf }
    let errors := t.2 ++ d.errors.map (MachineError.cache .data)
    match d.fault with
    | some f => ⟨config, errors, some (.cache_fault .data f)⟩
    | none =>
      let i := configure_cache config.cache_program (parser.values .i_cache)
      let config := { config with cache_program := i.conf }
      let errors := errors ++ i.errors.map (MachineError.cache .instruction)
      match i.fault with
      | some f => ⟨config, errors, some (.cache_fault .instruction f)⟩
      | none => ⟨configure_machine_osemu parser config, errors, none⟩
  | _ => ⟨config, [], some .show_help⟩

/-! ## Tracer (`configure_tracer`) -/

/-- The fields of `Tracer` (`tracer.h`, not among the sources) that
`configure_tracer` writes; `regs_to_trace` is a `std::array` of flags. -/
structure Tracer where
  trace_fetch : Bool
  trace_decode : Bool
  trace_memory : Bool
  trace_writeback : Bool
  trace_pc : Bool
  trace_regs_gp : Bool
  regs_to_trace : List Bool
  deriving DecidableEq, Repr

/-- State of a run of `configure_tracer`: the tracer, the `trace-gp` values
reported with "Unknown register number given for trace-gp" (line 222), and the
index with which `regs_to_trace.at` threw `std::out_of_range`, if it did. -/
structure TracerRun where
  tr : Tracer
  errors : List QString
  out_of_range : Option Nat
  deriving DecidableEq, Repr

/-- Lines 200 to 209 of `configure_tracer`: the flags. -/
def configure_tracer_flags (p : QCommandLineParser) (tr : Tracer) : Tracer :=
  let tr := if p.isSet .trace_fetch then { tr with trace_fetch := true } else tr
  let tr :=
    if p.isSet .pipelined then
      let tr := if p.isSet .trace_decode then { tr with trace_decode := true } else tr
      let tr := if p.isSet .trace_execute then { tr with trace_fetch := true } else tr
      let tr := if p.isSet .trace_memory then { tr with trace_memory := true } else tr
      if p.isSet .trace_writeback then { tr with trace_writeback := true } else tr
    else tr
  let tr := if p.isSet .trace_pc then { tr with trace_pc := true } else tr
  if p.isSet .trace_gp then { tr with trace_regs_gp := true } else tr

/-- Lines 212 to 226 of `configure_tracer`: the loop over the `trace-gp` values
still to be handled. -/
def configure_tracer_gp (REGISTER_COUNT : Nat) : List QString → TracerRun → TracerRun
  | [], run => run
  | gp :: gps, run =>
    if gp = "*".toList then
      configure_tracer_gp REGISTER_COUNT gps
        { run with tr := { run.tr with
            regs_to_trace := List.replicate run.tr.regs_to_trace.length true } }
    else
      let res := (toInt gp).isSome
      let num := toSizeT ((toInt gp).getD 0)
      if res ∧ num ≤ REGISTER_COUNT then
        if num < run.tr.regs_to_trace.length then
          configure_tracer_gp REGISTER_COUNT gps
            { run with tr := { run.tr with regs_to_trace := run.tr.regs_to_trace.set num true } }
        else
          { run with out_of_range := some num }
      else
        configure_tracer_gp REGISTER_COUNT gps { run with errors := run.errors ++ [gp] }

/-- The function `configure_tracer` (lines 199 to 229).  `REGISTER_COUNT` is
`machine::REGISTER_COUNT`, a constant that is not among the sources. -/
def configure_tracer (REGISTER_COUNT : Nat) (p : QCommandLineParser) (tr : Tracer) : TracerRun :=
  configure_tracer_gp REGISTER_COUNT (p.values .trace_gp)
    ⟨configure_tracer_flags p tr, [], none⟩

/-! ## Reporter (`configure_reporter`) -/

/-- Search of `QString::indexOf` from index `i` on: the index of the first `c`, or -1. -/
def indexOfAux (c : Char) : List Char → Nat → Int
  | [], _ => -1
  | x :: xs, i => if x = c then (i : Int) else indexOfAux c xs (i + 1)

/-- The call `QString::indexOf(c, start)`; a negative `start` counts from the end. -/
def indexOf (s : QString) (c : Char) (start : Int) : Int :=
  let start := if start < 0 then max (start + s.length) 0 else start
  indexOfAux c (s.drop start.toNat) start.toNat

/-- The call `QString::mid(position, n)`: `n` characters from `position` on, all the
remaining ones when `n` is negative or larger than what is left. -/
def mid (s : QString) (position n : Int) : QString :=
  if position > s.length then []
  else if position < 0 then
    if n < 0 ∨ n + position ≥ s.length then s
    else if n + position ≤ 0 then []
    else s.take (n + position).toNat
  else if n < 0 ∨ n > s.length - position then s.drop position.toNat
  else (s.drop position.toNat).take n.toNat

/-- The reasons of `Reporter::FailReason` that `main.cpp` names. -/
inductive FailReason where
  | FR_UNSUPPORTED_INSTR
  | FailAny
  deriving DecidableEq, Repr

/-- A memory range to dump, as given to `Reporter::add_dump_range`. -/
structure DumpRange where
  start : Nat
  len : Nat
  path_to_write : QString
  deriving DecidableEq, Repr

/-- The part of `Reporter` (`reporter.h`, not among the sources) that
`configure_reporter` drives: the three switches, the arguments of the calls of
`expect_fail` and the arguments of the calls of `add_dump_range`, oldest first.
An argument of `expect_fail` is `none` when the variable passed was never
assigned. -/
structure Reporter where
  regs_reporting : Bool
  cache_stats : Bool
  cycles_reporting : Bool
  expected_fails : List (Option FailReason)
  dump_ranges : List DumpRange
  deriving DecidableEq, Repr

/-- The messages `configure_reporter` prints before `QCoreApplication::exit(1)`. -/
inductive ReporterError where
  /-- Message "Unknown fail condition: %c" (line 243) -/
  | unknown_fail_condition (c : Char)
  /-- Message "Range start missing" (line 258) -/
  | range_start_missing
  /-- Message "Range length/name missing" (line 263) -/
  | range_length_missing
  /-- Message "Range start/length specification error." (line 282) -/
  | range_specification_error
  deriving DecidableEq, Repr

/-- State of a run of `configure_reporter`. -/
structure ReporterRun where
  r : Reporter
  errors : List ReporterError
  deriving DecidableEq, Repr

/-- The lookup `SymbolTable::name_to_value(value, name)`: the flag it returns and the
value the output variable holds after the call. -/
abbrev SymbolTable := QString → Bool × Nat

/-- Lines 268 to 274 (and 276 to 280, 387 to 393): a text that starts with a
character other than a digit is looked up in the symbol table, when there is
one; any other text is read as a number in C notation, 0 when that fails. -/
def range_number (symtab : Option SymbolTable) (str : QString) : Bool × Nat :=
  match str, symtab with
  | c :: _, some st =>
    if !isDigit c then st str else ((toULong str 0).isSome, (toULong str 0).getD 0)
  | _, _ => ((toULong str 0).isSome, (toULong str 0).getD 0)

/-- Lines 238 to 247: one character of a `fail-match` value. -/
def fail_match_char (run : ReporterRun) (c : Char) : ReporterRun :=
  if c.toLower = 'i' then
    { run with r := { run.r with
        expected_fails := run.r.expected_fails ++ [some .FR_UNSUPPORTED_INSTR] } }
  else
    { r := { run.r with expected_fails := run.r.expected_fails ++ [none] }
      errors := run.errors ++ [.unknown_fail_condition c] }

/-- Lines 252 to 285, for one `dump-range` value: the range given to
`add_dump_range` and the errors reported. -/
def dump_range_of (symtab : Option SymbolTable) (range_arg : QString) :
    DumpRange × List ReporterError :=
  let comma1 := indexOf range_arg ',' 0
  let e1 : List ReporterError := if comma1 < 0 then [.range_start_missing] else []
  let comma2 := indexOf range_arg ',' (comma1 + 1)
  let e2 : List ReporterError := if comma2 < 0 then [.range_length_missing] else []
  let start := range_number symtab (mid range_arg 0 comma1)
  let len := range_number symtab (mid range_arg (comma1 + 1) (comma2 - comma1 - 1))
  let e3 : List ReporterError :=
    if !start.1 ∨ !len.1 then [.range_specification_error] else []
  (⟨start.2, len.2, mid range_arg (comma2 + 1) (-1)⟩, e1 ++ e2 ++ e3)

/-- The body of the loop of lines 251 to 286, for one `dump-range` value. -/
def dump_range_arg (symtab : Option SymbolTable) (run : ReporterRun) (range_arg : QString) :
    ReporterRun :=
  { r := { run.r with dump_ranges := run.r.dump_ranges ++ [(dump_range_of symtab range_arg).1] }
    errors := run.errors ++ (dump_range_of symtab range_arg).2 }

/-- The function `configure_reporter` (lines 231 to 289). -/
def configure_reporter (p : QCommandLineParser) (r : Reporter) (symtab : Option SymbolTable) :
    ReporterRun :=
  let r := if p.isSet .dump_registers then { r with regs_reporting := true } else r
  let r := if p.isSet .dump_cache_stats then { r with cache_stats := true } else r
  let r := if p.isSet .dump_cycles then { r with cycles_reporting := true } else r
  let run := (p.values .fail_match).foldl (fun run f => f.foldl fail_match_char run) ⟨r, []⟩
  let run :=
    if p.isSet .expect_fail ∧ !p.isSet .fail_match then
      { run with r := { run.r with expected_fails := run.r.expected_fails ++ [some .FailAny] } }
    else run
  (p.values .dump_range).foldl (dump_range_arg symtab) run

/-! ## OS emulation (`configure_osemu`) -/

/-- Modelled from the spec: the trap causes of the dispatcher (§4.4: unsupported
instruction, unsupported ALU operation, overflow/underflow, unaligned jump target,
syscall); `main.cpp` names only `EXCAUSE_SYSCALL`. -/
inductive ExceptionCause where
  | EXCAUSE_UNSUPPORTED
  | EXCAUSE_ALU
  | EXCAUSE_OVERFLOW
  | EXCAUSE_UNALIGNED
  | EXCAUSE_SYSCALL
  deriving DecidableEq, Repr

/-- The handler `osemu::OsSyscallExceptionHandler`, by the arguments of its
constructor and the file its `char_written` signal is connected to, if any. -/
structure OsSyscallExceptionHandler where
  known_syscall_stop : Bool
  unknown_syscall_stop : Bool
  fs_root : QString
  std_out : Option QString
  deriving DecidableEq, Repr

/-- Modelled from the spec: the exception registration interface of `Machine`
(§4.4, `machine.h` is not among the sources): per cause, the registered handler
and the step-over and stop-on-exception flags. -/
structure Machine where
  handlers : ExceptionCause → Option OsSyscallExceptionHandler
  step_over_exception : ExceptionCause → Bool
  stop_on_exception : ExceptionCause → Bool

/-- Modelled from the spec: `Machine::register_exception_handler`; the last
registration for a cause wins and no other cause is affected. -/
def Machine.register_exception_handler (m : Machine) (cause : ExceptionCause)
    (h : OsSyscallExceptionHandler) : Machine :=
  { m with handlers := fun c => if c = cause then some h else m.handlers c }

/-- Modelled from the spec: `Machine::set_step_over_exception`, the flag of one cause. -/
def Machine.set_step_over_exception (m : Machine) (cause : ExceptionCause) (v : Bool) :
    Machine :=
  { m with step_over_exception := fun c => if c = cause then v else m.step_over_exception c }

/-- Modelled from the spec: `Machine::set_stop_on_exception`, the flag of one cause. -/
def Machine.set_stop_on_exception (m : Machine) (cause : ExceptionCause) (v : Bool) :
    Machine :=
  { m with stop_on_exception := fun c => if c = cause then v else m.stop_on_exception c }

/-- The message `configure_osemu` prints before `QCoreApplication::exit(1)`. -/
inductive OsemuError where
  /-- Message "Emulated system standard output file cannot be open for write." (line 350) -/
  | std_out_cannot_open
  deriving DecidableEq, Repr

/-- The function `configure_osemu` (lines 341 to 374).  `can_open` tells whether
a file opens for writing. -/
def configure_osemu (can_open : QString → Bool) (p : QCommandLineParser)
    (config : MachineConfig) (machine : Machine) : Machine × List OsemuError :=
  let std_out := (p.values .std_out).getLast?
  let errors : List OsemuError :=
    match std_out with
    | some f => if !can_open f then [.std_out_cannot_open] else []
    | none => []
  if config.osemu_enable then
    let osemu_handler : OsSyscallExceptionHandler :=
      ⟨config.osemu_known_syscall_stop, config.osemu_unknown_syscall_stop,
        config.osemu_fs_root, std_out⟩
    let machine := machine.register_exception_handler .EXCAUSE_SYSCALL osemu_handler
    let machine := machine.set_step_over_exception .EXCAUSE_SYSCALL true
    let machine := machine.set_stop_on_exception .EXCAUSE_SYSCALL false
    (machine, errors)
  else
    let machine := machine.set_step_over_exception .EXCAUSE_SYSCALL false
    let machine := machine.set_stop_on_exception .EXCAUSE_SYSCALL config.osemu_exception_stop
    (machine, errors)

/-! ## Loading memory ranges (`load_ranges`) -/

/-- Modelled from the spec: the tag `AccessEffects` (§3), internally generated
accesses against architecturally visible ones; `main.cpp` names only `INTERNAL`. -/
inductive AccessEffects where
  | REGULAR
  | INTERNAL
  deriving DecidableEq, Repr

/-- A call `write_u32(addr, value, effects)` on the data bus. -/
structure MemWrite where
  addr : Nat
  value : Nat
  effects : AccessEffects
  deriving DecidableEq, Repr

/-- The successive results of `std::getline` on a stream with the given content:
the text between line feeds; an empty line is returned before a line feed, none
after the last one. -/
def getlines : List Char → List (List Char)
  | [] => []
  | c :: cs =>
    if c = '\n' then [] :: getlines cs
    else
      match getlines cs with
      | [] => [[c]]
      | l :: ls => (c :: l) :: ls

/-- Membership in the set `" \t\n"` given to `find_last_not_of` and `find_first_not_of`. -/
def isBlank (c : Char) : Bool :=
  c = ' ' || c = '\t' || c = '\n'

/-- The call `line.find_first_not_of(" \t\n")`; `none` is `std::string::npos`. -/
def find_first_not_of : List Char → Option Nat
  | [] => none
  | c :: cs => if isBlank c then (find_first_not_of cs).map (· + 1) else some 0

/-- The call `line.find_last_not_of(" \t\n")`; `none` is `std::string::npos`. -/
def find_last_not_of (line : List Char) : Option Nat :=
  (find_first_not_of line.reverse).map (fun i => line.length - 1 - i)

/-- Longest run of digits of the base at the head of a text: the value read, from
an accumulator, and the number of characters read. -/
def takeDigits (base : Nat) : List Char → Nat → Nat → Nat × Nat
  | [], acc, n => (acc, n)
  | c :: cs, acc, n =>
    match digitValue c with
    | some d => if d < base then takeDigits base cs (acc * base + d) (n + 1) else (acc, n)
    | none => (acc, n)

/-- Result of `std::stoul(str, &idx, base)`: the value and `idx`, or the exception
thrown. -/
inductive StoulResult where
  | value (val idx : Nat)
  | invalid_argument
  | out_of_range
  deriving DecidableEq, Repr

/-- The optional sign `strtoul` reads: whether it is a minus, its length and the
text after it. -/
def strtoul_sign (s : List Char) : Bool × Nat × List Char :=
  match s with
  | '-' :: t => (true, 1, t)
  | '+' :: t => (false, 1, t)
  | t => (false, 0, t)

/-- The base `strtoul` works in, the length of the prefix it skips and the text
after the prefix: for base 0 or 16 an optional `0x` or `0X`; for base 0 a leading
`0` selects base 8 and anything else base 10. -/
def strtoul_base (base : Nat) (s : List Char) : Nat × Nat × List Char :=
  match s with
  | '0' :: x :: t =>
    if (base = 0 ∨ base = 16) ∧ (x = 'x' ∨ x = 'X') then (16, 2, t)
    else if base = 0 then (8, 0, s) else (base, 0, s)
  | '0' :: t => if base = 0 then (8, 0, '0' :: t) else (base, 0, '0' :: t)
  | t => if base = 0 then (10, 0, t) else (base, 0, t)

/-- The call `std::stoul(str, &idx, base)` for an `unsigned long` of 64 bits, after
`strtoul`: white space, an optional sign, an optional prefix, then the longest run
of digits.  Nothing read throws `std::invalid_argument`, a value that does not fit
`std::out_of_range`; a minus sign negates the value modulo `2^64`; `0x` without a
hexadecimal digit reads as the number `0`. -/
def stoul (str : List Char) (base : Nat) : StoulResult :=
  let spaces := (str.takeWhile isSpace).length
  let sign := strtoul_sign (str.dropWhile isSpace)
  let pre := strtoul_base base sign.2.2
  let d := takeDigits pre.1 pre.2.2 0 0
  if d.2 = 0 then
    if pre.2.1 = 2 then .value 0 (spaces + sign.2.1 + 1) else .invalid_argument
  else if 2 ^ 64 ≤ d.1 then .out_of_range
  else .value (if sign.1 then (2 ^ 64 - d.1) % 2 ^ 64 else d.1) (spaces + sign.2.1 + pre.2.1 + d.2)

/-- The exceptions `std::stoul` throws; `load_ranges` catches none. -/
inductive StoulException where
  | invalid_argument
  | out_of_range
  deriving DecidableEq, Repr

/-- The messages `load_ranges` prints before `QCoreApplication::exit(1)`. -/
inductive LoadError where
  /-- Message "Range start missing" (line 382) -/
  | range_start_missing
  /-- Message "Range start/length specification error." (line 395) -/
  | range_specification_error
  /-- Message "cannot parse load range data." (line 414) -/
  | cannot_parse_data
  deriving DecidableEq, Repr

/-- State of a run of `load_ranges`: the words written through the data bus and
the errors reported, oldest first, and the exception that ended the run, if any. -/
structure LoadRun where
  writes : List MemWrite
  errors : List LoadError
  exception : Option StoulException
  deriving DecidableEq, Repr

/-- Lines 401 to 419: the loop over the lines still to be read, `addr` being the
address of the next word. -/
def load_lines : List (List Char) → Nat → LoadRun → LoadRun
  | [], _, run => run
  | line :: lines, addr, run =>
    match find_last_not_of line, find_first_not_of line with
    | some end_pos, some start_pos =>
      let line := (line.take (end_pos + 1)).drop start_pos
      match stoul line 0 with
      | .invalid_argument => { run with exception := some .invalid_argument }
      | .out_of_range => { run with exception := some .out_of_range }
      | .value val idx =>
        let errors := if idx ≠ line.length then run.errors ++ [.cannot_parse_data] else run.errors
        load_lines lines ((addr + 4) % 2 ^ 64)
          { run with
            writes := run.writes ++ [⟨addr, val % 2 ^ 32, .INTERNAL⟩]
            errors := errors }
    | _, _ => load_lines lines addr run

/-- The function `load_ranges` (lines 376 to 422).  `symtab` is
`machine.symbol_table()`, `files` gives the content of the files that can be
opened for reading; the result extends `run`. -/
def load_ranges (symtab : Option SymbolTable) (files : QString → Option (List Char)) :
    List QString → LoadRun → LoadRun
  | [], run => run
  | range_arg :: ranges, run =>
    let comma1 := indexOf range_arg ',' 0
    let e1 : List LoadError := if comma1 < 0 then [.range_start_missing] else []
    let start := range_number symtab (mid range_arg 0 comma1)
    let e2 : List LoadError := if !start.1 then [.range_specification_error] else []
    let lines := ((files (mid range_arg (comma1 + 1) (-1))).map getlines).getD []
    let run := load_lines lines start.2 { run with errors := run.errors ++ e1 ++ e2 }
    match run.exception with
    | some _ => run
    | none => load_ranges symtab files ranges run

/-! ## Vocabulary of the statements -/

/-- A configuration to start from. -/
def CacheConfig.initial : CacheConfig :=
  ⟨false, 1, 1, 1, .RP_RAND, .WP_THROUGH_NOALLOC⟩

/-- The fields of a cache argument that follow the optional policy name: the
comma-separated fields, without the first one when it does not start with a digit. -/
def geometry_fields (arg : QString) : List QString :=
  match split arg with
  | (c :: r) :: rest => if isDigit c then (c :: r) :: rest else rest
  | _ :: rest => rest
  | [] => []

/-- The first comma-separated field of an argument. -/
def first_field (arg : QString) : QString :=
  (split arg).headD []

/-- Whether a text starts with a digit. -/
def starts_with_digit (s : QString) : Bool :=
  match s with
  | c :: _ => isDigit c
  | [] => false

/-- A tracer with every flag off and 32 registers, none traced. -/
def Tracer.initial : Tracer :=
  ⟨false, false, false, false, false, false, List.replicate 32 false⟩

/-- A reporter with nothing enabled. -/
def Reporter.initial : Reporter :=
  ⟨false, false, false, [], []⟩

/-- A command line with one positional argument and the given options. -/
def command_line (options : List (OptionName × Option QString)) : QCommandLineParser :=
  ⟨["prog.elf".toList], options⟩

/-- A machine configuration to start from. -/
def MachineConfig.initial : MachineConfig :=
  { elf := []
    delay_slot := true
    pipelined := false
    hazard_unit := .HU_NONE
    memory_access_time_read := 10
    memory_access_time_write := 10
    memory_access_time_burst := 0
    cache_data := CacheConfig.initial
    cache_program := CacheConfig.initial
    osemu_enable := true
    osemu_known_syscall_stop := true
    osemu_unknown_syscall_stop := true
    osemu_exception_stop := false
    osemu_fs_root := [] }

/-- A machine without handlers that stops on every exception. -/
def Machine.initial : Machine :=
  ⟨fun _ => none, fun _ => false, fun _ => true⟩

/-- A decimal numeral: one or more of the digits `0` to `9`. -/
def is_decimal (s : QString) : Prop :=
  s ≠ [] ∧ ∀ c ∈ s, isDigit c = true

/-- The number a decimal numeral denotes. -/
def decimal_value (s : QString) : Nat :=
  s.foldl (fun acc c => acc * 10 + (c.toNat - 48)) 0

/-- A numeral: a text that starts with a digit and that `toULong(&ok, 0)` reads as
the number `v`. -/
def is_numeric (s : QString) (v : Nat) : Prop :=
  starts_with_digit s = true ∧ toULong s 0 = some v

/-- A `dump-range` value of the form `START,LENGTH,FNAME` with numeric `START` and
`LENGTH`: the number before the first comma, the number between the first and the
second comma, and everything after the second comma. -/
def is_dump_range_arg (arg : QString) (start len : Nat) (fname : QString) : Prop :=
  ∃ s l, arg = s ++ ',' :: (l ++ ',' :: fname) ∧ ',' ∉ s ∧ ',' ∉ l ∧
    is_numeric s start ∧ is_numeric l len

/-- A digit of the given base. -/
def is_digit_of (base : Nat) (c : Char) : Prop :=
  ∃ d, digitValue c = some d ∧ d < base

/-- The number a text made of digits of the given base denotes. -/
def numeral_value (base : Nat) (s : List Char) : Nat :=
  s.foldl (fun acc c => acc * base + (digitValue c).getD 0) 0

/-- An integer literal and its value: decimal (digits, the first one not `0`), octal
(`0` followed by octal digits) or hexadecimal (`0x` or `0X` followed by one or more
hexadecimal digits). -/
inductive is_literal : List Char → Nat → Prop where
  | decimal (c : Char) (cs : List Char) :
      c ≠ '0' → (∀ d ∈ c :: cs, is_digit_of 10 d) →
      is_literal (c :: cs) (numeral_value 10 (c :: cs))
  | octal (cs : List Char) :
      (∀ d ∈ cs, is_digit_of 8 d) → is_literal ('0' :: cs) (numeral_value 8 cs)
  | hexadecimal (x : Char) (cs : List Char) :
      x = 'x' ∨ x = 'X' → cs ≠ [] → (∀ d ∈ cs, is_digit_of 16 d) →
      is_literal ('0' :: x :: cs) (numeral_value 16 cs)

/-- A run of spaces and tabs, possibly empty. -/
def is_blanks (s : List Char) : Prop :=
  ∀ c ∈ s, c = ' ' ∨ c = '\t'

/-- The lines of a file against the words they hold: a line of spaces and tabs
holds nothing, any other line is one integer literal that fits an `unsigned long`,
with spaces and tabs around it. -/
inductive lines_hold : List (List Char) → List Nat → Prop where
  | nil : lines_hold [] []
  | blank (line : List Char) (lines : List (List Char)) (words : List Nat) :
      is_blanks line → lines_hold lines words → lines_hold (line :: lines) words
  | word (before lit after : List Char) (v : Nat) (lines : List (List Char))
      (words : List Nat) :
      is_blanks before → is_blanks after → is_literal lit v → v < 2 ^ 64 →
      lines_hold lines words → lines_hold ((before ++ lit ++ after) :: lines) (v :: words)

/-- The calls of `write_u32` that store the given words one after the other from
`addr` on, four bytes apart. -/
def word_writes : Nat → List Nat → List MemWrite
  | _, [] => []
  | addr, v :: words => ⟨addr, v % 2 ^ 32, .INTERNAL⟩ :: word_writes ((addr + 4) % 2 ^ 64) words

/-- A word-per-line dump: each word written by `render` and followed by a line feed. -/
def dump_text (render : Nat → List Char) : List Nat → List Char
  | [] => []
  | w :: ws => render w ++ '\n' :: dump_text render ws

/-- A file system with the single file `words.txt`, of four lines. -/
def sample_files (f : QString) : Option (List Char) :=
  if f = "words.txt".toList then some " 0x10 \n\n7\n010".toList else none

/-- A way to write the words 16 and 7. -/
def sample_render (w : Nat) : List Char :=
  if w = 16 then "0x10".toList else "7".toList

/-- A file system with the single file `dump.txt`, the dump of the words 16 and 7. -/
def sample_dump (f : QString) : Option (List Char) :=
  if f = "dump.txt".toList then some (dump_text sample_render [16, 7]) else none

/-! ## Serial port (`configure_serial_port`) -/

/-- The open modes of `QFile` that `configure_serial_port` uses. -/
inductive OpenMode where
  | ReadOnly
  | WriteOnly
  | ReadWrite
  deriving DecidableEq, Repr

/-- The handler `ser_out` points to. -/
inductive SerialOut where
  /-- The handler `ser_in` itself (line 307). -/
  | ser_in
  /-- A handler of its own on the named file (line 320). -/
  | file (name : QString)
  deriving DecidableEq, Repr

/-- The messages `configure_serial_port` prints before `QCoreApplication::exit(1)`. -/
inductive SerialError where
  /-- Message "Serial port input file cannot be open for read." (line 311) -/
  | input_cannot_open
  /-- Message "Serial port output file cannot be open for write." (line 322) -/
  | output_cannot_open
  deriving DecidableEq, Repr

/-- State of a run of `configure_serial_port`: the file of the handler `ser_in`
with the mode it is opened in, the handler `ser_out`, the errors reported, and
the index with which `p.values("serial-in").at` left the bounds, if it did. -/
structure SerialRun where
  ser_in : Option (QString × OpenMode)
  ser_out : Option SerialOut
  errors : List SerialError
  fault : Option Nat
  deriving DecidableEq, Repr

/-- Lines 303 to 309: whether input and output share one file.  `siz` is the number
of `serial-out` values and indexes both lists; the result is the index when
`p.values("serial-in").at(siz - 1)` is outside the list. -/
def serial_port_shared (serial_in serial_out : List QString) : Except Nat Bool :=
  let siz := serial_out.length
  if siz ≠ 0 then
    match serial_in[siz - 1]?, serial_out[siz - 1]? with
    | some a, some b => .ok (a = b)
    | _, _ => .error (siz - 1)
  else .ok false

/-- Lines 316 to 326: the handler of the output when it does not share the input. -/
def serial_port_output (can_open : QString → OpenMode → Bool) (serial_out : List QString)
    (run : SerialRun) : SerialRun :=
  match run.ser_out with
  | some _ => run
  | none =>
    match serial_out.getLast? with
    | none => run
    | some f =>
      { run with
        ser_out := some (.file f)
        errors := if !can_open f .WriteOnly then run.errors ++ [.output_cannot_open]
          else run.errors }

/-- The function `configure_serial_port` (lines 291 to 339), up to the signal
connections.  `ser_port` tells whether the pointer is not null, `can_open` whether
a file opens in a mode. -/
def configure_serial_port (can_open : QString → OpenMode → Bool) (p : QCommandLineParser)
    (ser_port : Bool) : SerialRun :=
  if !ser_port then ⟨none, none, [], none⟩
  else
    match (p.values .serial_in).getLast? with
    | none => serial_port_output can_open (p.values .serial_out) ⟨none, none, [], none⟩
    | some f =>
      match serial_port_shared (p.values .serial_in) (p.values .serial_out) with
      | .error i => ⟨some (f, .ReadOnly), none, [], some i⟩
      | .ok true =>
        serial_port_output can_open (p.values .serial_out)
          ⟨some (f, .ReadWrite), some .ser_in,
            if !can_open f .ReadWrite then [.input_cannot_open] else [], none⟩
      | .ok false =>
        serial_port_output can_open (p.values .serial_out)
          ⟨some (f, .ReadOnly), none,
            if !can_open f .ReadOnly then [.input_cannot_open] else [], none⟩

/-! # Properties -/

/-! ## Cache configuration -/

theorem configure_cache_last (conf : CacheConfig) (args : List QString) (arg : QString) :
    configure_cache conf (args ++ [arg]) = configure_cache conf [arg] := by
  simp [configure_cache]

theorem cache_write_policy_errors_nil (conf : CacheConfig) (errors : List CacheError)
    (pieces : List QString) (h : (cache_write_policy conf errors pieces).errors = []) :
    errors = [] := by
  unfold cache_write_policy at h
  split at h
  · split_ifs at h <;> simp_all
  · simpa using h

theorem cache_write_policy_sizes (conf : CacheConfig) (errors : List CacheError)
    (pieces : List QString) :
    (cache_write_policy conf errors pieces).conf.set_count = conf.set_count ∧
    (cache_write_policy conf errors pieces).conf.block_size = conf.block_size ∧
    (cache_write_policy conf errors pieces).conf.associativity = conf.associativity ∧
    (cache_write_policy conf errors pieces).fault = none := by
  unfold cache_write_policy
  split
  · split_ifs <;> simp
  · simp

theorem toUnsigned_zero : toUnsigned 0 = 0 := by decide

theorem cache_geometry_no_error (conf : CacheConfig) (errors : List CacheError)
    (pieces : List QString) (h : (cache_geometry conf errors pieces).errors = []) :
    (cache_geometry conf errors pieces).fault = none ∧
    0 < (cache_geometry conf errors pieces).conf.set_count ∧
    0 < (cache_geometry conf errors pieces).conf.block_size ∧
    0 < (cache_geometry conf errors pieces).conf.associativity ∧
    ∀ i f, i < 3 → pieces[i]? = some f → toLong f ≠ 0 := by
  match pieces with
  | [] => simp [cache_geometry] at h
  | [p0] => simp [cache_geometry] at h
  | [p0, p1] => simp [cache_geometry] at h
  | p0 :: p1 :: p2 :: rest =>
    simp only [cache_geometry] at h ⊢
    have h' := cache_write_policy_errors_nil _ _ _ h
    have hz : ¬ (toUnsigned (toLong p0) = 0 ∨ toUnsigned (toLong p1) = 0 ∨
        toUnsigned (toLong p2) = 0) := by
      intro hz
      rw [if_pos hz] at h'
      simp at h'
    rw [not_or, not_or] at hz
    obtain ⟨z0, z1, z2⟩ := hz
    obtain ⟨h1, h2, h3, h4⟩ := cache_write_policy_sizes
      { conf with set_count := toUnsigned (toLong p0), block_size := toUnsigned (toLong p1),
                  associativity := toUnsigned (toLong p2) }
      (if toUnsigned (toLong p0) = 0 ∨ toUnsigned (toLong p1) = 0 ∨ toUnsigned (toLong p2) = 0 then
        (if (p0 :: p1 :: p2 :: rest).length < 3 then errors ++ [CacheError.parameters_incorrect_after_policy] else errors) ++ [CacheError.zero_component]
       else (if (p0 :: p1 :: p2 :: rest).length < 3 then errors ++ [CacheError.parameters_incorrect_after_policy] else errors))
      (p0 :: p1 :: p2 :: rest)
    refine ⟨h4, ?_, ?_, ?_, ?_⟩
    · rw [h1]; exact Nat.pos_of_ne_zero z0
    · rw [h2]; exact Nat.pos_of_ne_zero z1
    · rw [h3]; exact Nat.pos_of_ne_zero z2
    · intro i f hi hf hzero
      match i, hi with
      | 0, _ =>
        simp only [List.getElem?_cons_zero, Option.some.injEq] at hf
        rw [← hf] at hzero; rw [hzero] at z0; exact z0 toUnsigned_zero
      | 1, _ =>
        simp only [List.getElem?_cons_succ, List.getElem?_cons_zero, Option.some.injEq] at hf
        rw [← hf] at hzero; rw [hzero] at z1; exact z1 toUnsigned_zero
      | 2, _ =>
        simp only [List.getElem?_cons_succ, List.getElem?_cons_zero, Option.some.injEq] at hf
        rw [← hf] at hzero; rw [hzero] at z2; exact z2 toUnsigned_zero

theorem cache_policy_errors_nil (conf : CacheConfig) (errors : List CacheError) (c0 : Char)
    (p0 : QString) (pieces : List QString)
    (h : (cache_policy conf errors c0 p0 pieces).2.1 = []) : errors = [] := by
  unfold cache_policy at h
  split_ifs at h <;> simp_all

theorem cache_policy_pieces (conf : CacheConfig) (errors : List CacheError) (c0 : Char)
    (p0 : QString) (pieces : List QString) :
    (cache_policy conf errors c0 p0 pieces).2.2 = if isDigit c0 then pieces else pieces.tail := by
  unfold cache_policy
  split_ifs <;> simp_all

theorem split_ne_nil (s : QString) : split s ≠ [] := by
  cases s with
  | nil => simp [split]
  | cons c cs =>
    simp only [split]
    split_ifs
    · simp
    · split <;> simp

theorem configure_cache_empty_first (conf : CacheConfig) (arg : QString) (rest : List QString)
    (hs : split arg = [] :: rest) :
    configure_cache conf [arg] =
      ⟨{ conf with enabled := true },
        (if ([] :: rest : List QString).length < 3 then [CacheError.parameters_incorrect] else [])
          ++ [.policy_empty],
        some .first_char⟩ := by
  simp [configure_cache, hs]

theorem configure_cache_first_char (conf : CacheConfig) (arg : QString) (c0 : Char)
    (r0 : QString) (rest : List QString) (hs : split arg = (c0 :: r0) :: rest) :
    configure_cache conf [arg] =
      cache_geometry
        (cache_policy { conf with enabled := true }
          (if ((c0 :: r0) :: rest).length < 3 then [CacheError.parameters_incorrect] else [])
          c0 (c0 :: r0) ((c0 :: r0) :: rest)).1
        (cache_policy { conf with enabled := true }
          (if ((c0 :: r0) :: rest).length < 3 then [CacheError.parameters_incorrect] else [])
          c0 (c0 :: r0) ((c0 :: r0) :: rest)).2.1
        (cache_policy { conf with enabled := true }
          (if ((c0 :: r0) :: rest).length < 3 then [CacheError.parameters_incorrect] else [])
          c0 (c0 :: r0) ((c0 :: r0) :: rest)).2.2 := by
  simp [configure_cache, hs]

/-- Claim C1.  When `configure_cache` reports no error for a cache argument, it ran
to its end without leaving the bounds and the set count, block size and
associativity it stored are all greater than zero.  In particular an argument
whose set-count, block-size or associativity field (one of the first three fields
after the optional policy name) is read as 0 by `toLong` has an error reported. -/
theorem configure_cache_no_error_positive (conf : CacheConfig) (args : List QString)
    (arg : QString) :
    ((configure_cache conf (args ++ [arg])).errors = [] →
      (configure_cache conf (args ++ [arg])).fault = none ∧
      0 < (configure_cache conf (args ++ [arg])).conf.set_count ∧
      0 < (configure_cache conf (args ++ [arg])).conf.block_size ∧
      0 < (configure_cache conf (args ++ [arg])).conf.associativity) ∧
    (∀ i f, i < 3 → (geometry_fields arg)[i]? = some f → toLong f = 0 →
      (configure_cache conf (args ++ [arg])).errors ≠ []) := by
  rw [configure_cache_last]
  suffices H : (configure_cache conf [arg]).errors = [] →
      ((configure_cache conf [arg]).fault = none ∧
      0 < (configure_cache conf [arg]).conf.set_count ∧
      0 < (configure_cache conf [arg]).conf.block_size ∧
      0 < (configure_cache conf [arg]).conf.associativity) ∧
      ∀ i f, i < 3 → (geometry_fields arg)[i]? = some f → toLong f ≠ 0 by
    exact ⟨fun h => (H h).1, fun i f hi hf hz he => (H he).2 i f hi hf hz⟩
  intro h
  rcases hs : split arg with _ | ⟨p0, rest⟩
  · exact absurd hs (split_ne_nil arg)
  · rcases p0 with _ | ⟨c0, r0⟩
    · rw [configure_cache_empty_first conf arg rest hs] at h
      simp at h
    · rw [configure_cache_first_char conf arg c0 r0 rest hs] at h ⊢
      have g := cache_geometry_no_error _ _ _ h
      refine ⟨⟨g.1, g.2.1, g.2.2.1, g.2.2.2.1⟩, ?_⟩
      have g5 := g.2.2.2.2
      rw [cache_policy_pieces] at g5
      simp only [geometry_fields, hs]
      by_cases hd : isDigit c0 = true
      · simpa [hd] using g5
      · simpa [hd] using g5

theorem configure_cache_no_error_positive_witness :
    (configure_cache CacheConfig.initial ([] ++ ["lru,4,2,2,wb".toList])).errors = [] ∧
    ((configure_cache CacheConfig.initial ([] ++ ["lru,4,2,2,wb".toList])).fault = none ∧
      0 < (configure_cache CacheConfig.initial ([] ++ ["lru,4,2,2,wb".toList])).conf.set_count ∧
      0 < (configure_cache CacheConfig.initial ([] ++ ["lru,4,2,2,wb".toList])).conf.block_size ∧
      0 < (configure_cache CacheConfig.initial ([] ++ ["lru,4,2,2,wb".toList])).conf.associativity) ∧
    (configure_cache CacheConfig.initial ([] ++ ["lru,4,abc,2".toList])).errors ≠ [] :=
  ⟨by decide,
   (configure_cache_no_error_positive CacheConfig.initial [] "lru,4,2,2,wb".toList).1 (by decide),
   (configure_cache_no_error_positive CacheConfig.initial [] "lru,4,abc,2".toList).2 1 "abc".toList
     (by decide) (by decide) (by decide)⟩

theorem cache_write_policy_replacement (conf : CacheConfig) (errors : List CacheError)
    (pieces : List QString) :
    (cache_write_policy conf errors pieces).conf.replacement_policy = conf.replacement_policy := by
  unfold cache_write_policy
  split
  · split_ifs <;> rfl
  · rfl

theorem cache_write_policy_errors (conf : CacheConfig) (errors : List CacheError)
    (pieces : List QString) :
    (cache_write_policy conf errors pieces).errors = errors ∨
    (cache_write_policy conf errors pieces).errors = errors ++ [.write_policy_incorrect] := by
  unfold cache_write_policy
  split
  · split_ifs <;> simp
  · simp

theorem cache_geometry_replacement (conf : CacheConfig) (errors : List CacheError)
    (pieces : List QString) :
    (cache_geometry conf errors pieces).conf.replacement_policy = conf.replacement_policy := by
  match pieces with
  | [] => rfl
  | [_] => rfl
  | [_, _] => rfl
  | _ :: _ :: _ :: _ =>
    simp only [cache_geometry]
    rw [cache_write_policy_replacement]

theorem cache_geometry_errors (conf : CacheConfig) (errors : List CacheError)
    (pieces : List QString) (e : CacheError) :
    (e ∈ errors → e ∈ (cache_geometry conf errors pieces).errors) ∧
    (e ∈ (cache_geometry conf errors pieces).errors →
      e ∈ errors ∨ e = .parameters_incorrect_after_policy ∨ e = .zero_component ∨
        e = .write_policy_incorrect) := by
  match pieces with
  | [] => simp [cache_geometry]; tauto
  | [_] => simp [cache_geometry]; tauto
  | [_, _] => simp [cache_geometry]; tauto
  | p0 :: p1 :: p2 :: rest =>
    simp only [cache_geometry]
    rcases cache_write_policy_errors
      { conf with set_count := toUnsigned (toLong p0), block_size := toUnsigned (toLong p1),
                  associativity := toUnsigned (toLong p2) }
      (if toUnsigned (toLong p0) = 0 ∨ toUnsigned (toLong p1) = 0 ∨ toUnsigned (toLong p2) = 0 then
        (if (p0 :: p1 :: p2 :: rest).length < 3 then errors ++ [CacheError.parameters_incorrect_after_policy] else errors) ++ [CacheError.zero_component]
       else (if (p0 :: p1 :: p2 :: rest).length < 3 then errors ++ [CacheError.parameters_incorrect_after_policy] else errors))
      (p0 :: p1 :: p2 :: rest) with h | h <;> rw [h] <;> split_ifs <;> simp <;> tauto

theorem cache_policy_result (conf : CacheConfig) (errors : List CacheError) (c0 : Char)
    (p0 : QString) (pieces : List QString) :
    (cache_policy conf errors c0 p0 pieces).1.replacement_policy =
      (if isDigit c0 = true then conf.replacement_policy
       else if toLower p0 = "random".toList then .RP_RAND
       else if toLower p0 = "lru".toList then .RP_LRU
       else if toLower p0 = "lfu".toList then .RP_LFU
       else conf.replacement_policy) ∧
    (cache_policy conf errors c0 p0 pieces).2.1 =
      (if isDigit c0 = true then errors
       else if toLower p0 = "random".toList ∨ toLower p0 = "lru".toList ∨
          toLower p0 = "lfu".toList then errors
       else errors ++ [.policy_incorrect]) := by
  unfold cache_policy
  split_ifs <;> simp_all

theorem configure_cache_policy (conf : CacheConfig) (arg : QString) (c0 : Char)
    (r0 : QString) (rest : List QString) (hs : split arg = (c0 :: r0) :: rest) :
    (configure_cache conf [arg]).conf.replacement_policy =
      (if isDigit c0 = true then conf.replacement_policy
       else if toLower (c0 :: r0) = "random".toList then .RP_RAND
       else if toLower (c0 :: r0) = "lru".toList then .RP_LRU
       else if toLower (c0 :: r0) = "lfu".toList then .RP_LFU
       else conf.replacement_policy) ∧
    CacheError.policy_empty ∉ (configure_cache conf [arg]).errors ∧
    (CacheError.policy_incorrect ∈ (configure_cache conf [arg]).errors ↔
      (isDigit c0 = false ∧ ¬ (toLower (c0 :: r0) = "random".toList ∨
        toLower (c0 :: r0) = "lru".toList ∨ toLower (c0 :: r0) = "lfu".toList))) := by
  rw [configure_cache_first_char conf arg c0 r0 rest hs]
  have hin : ∀ e, e ∈ (if ((c0 :: r0) :: rest).length < 3 then [CacheError.parameters_incorrect]
      else []) → e = CacheError.parameters_incorrect := by
    intro e he
    split_ifs at he <;> simp_all
  generalize (if ((c0 :: r0) :: rest).length < 3 then [CacheError.parameters_incorrect]
      else []) = E at hin
  obtain ⟨hr, he⟩ := cache_policy_result { conf with enabled := true } E c0 (c0 :: r0)
    ((c0 :: r0) :: rest)
  have hg := fun e => cache_geometry_errors
    (cache_policy { conf with enabled := true } E c0 (c0 :: r0) ((c0 :: r0) :: rest)).1
    (cache_policy { conf with enabled := true } E c0 (c0 :: r0) ((c0 :: r0) :: rest)).2.1
    (cache_policy { conf with enabled := true } E c0 (c0 :: r0) ((c0 :: r0) :: rest)).2.2 e
  rw [cache_geometry_replacement, hr]
  refine ⟨rfl, ?_, ?_⟩
  · intro hm
    rcases (hg _).2 hm with h | h | h | h
    · rw [he] at h
      split_ifs at h
      · exact absurd (hin _ h) (by decide)
      · exact absurd (hin _ h) (by decide)
      · rcases List.mem_append.1 h with h | h
        · exact absurd (hin _ h) (by decide)
        · simp at h
    · exact absurd h (by decide)
    · exact absurd h (by decide)
    · exact absurd h (by decide)
  · constructor
    · intro hm
      rcases (hg _).2 hm with h | h | h | h
      · rw [he] at h
        split_ifs at h with h1 h2
        · exact absurd (hin _ h) (by decide)
        · exact absurd (hin _ h) (by decide)
        · exact ⟨by simpa using h1, h2⟩
      · exact absurd h (by decide)
      · exact absurd h (by decide)
      · exact absurd h (by decide)
    · rintro ⟨h1, h2⟩
      apply (hg _).1
      rw [he, if_neg (by simp [h1]), if_neg h2]
      exact List.mem_append_right _ (List.mem_singleton_self _)

/-- Claim C2.  For a cache argument whose first comma-separated field does not
start with a digit, the replacement policy `configure_cache` leaves is `RP_RAND`,
`RP_LRU` or `RP_LFU` when that field, in lower case, is "random", "lru" or "lfu",
and no policy error is reported; for every other such field the policy is the one
the configuration had and a policy error is reported.  When the first field
starts with a digit the policy is the one the configuration had. -/
theorem configure_cache_replacement_policy (conf : CacheConfig) (args : List QString)
    (arg : QString) :
    (starts_with_digit (first_field arg) = false →
      (toLower (first_field arg) = "random".toList →
        (configure_cache conf (args ++ [arg])).conf.replacement_policy = .RP_RAND) ∧
      (toLower (first_field arg) = "lru".toList →
        (configure_cache conf (args ++ [arg])).conf.replacement_policy = .RP_LRU) ∧
      (toLower (first_field arg) = "lfu".toList →
        (configure_cache conf (args ++ [arg])).conf.replacement_policy = .RP_LFU) ∧
      ((toLower (first_field arg) = "random".toList ∨ toLower (first_field arg) = "lru".toList ∨
          toLower (first_field arg) = "lfu".toList) →
        CacheError.policy_incorrect ∉ (configure_cache conf (args ++ [arg])).errors ∧
        CacheError.policy_empty ∉ (configure_cache conf (args ++ [arg])).errors) ∧
      (toLower (first_field arg) ≠ "random".toList → toLower (first_field arg) ≠ "lru".toList →
        toLower (first_field arg) ≠ "lfu".toList →
        (configure_cache conf (args ++ [arg])).conf.replacement_policy = conf.replacement_policy ∧
        (CacheError.policy_incorrect ∈ (configure_cache conf (args ++ [arg])).errors ∨
          CacheError.policy_empty ∈ (configure_cache conf (args ++ [arg])).errors))) ∧
    (starts_with_digit (first_field arg) = true →
      (configure_cache conf (args ++ [arg])).conf.replacement_policy = conf.replacement_policy) := by
  rw [configure_cache_last]
  rcases hs : split arg with _ | ⟨p0, rest⟩
  · exact absurd hs (split_ne_nil arg)
  · rcases p0 with _ | ⟨c0, r0⟩
    · rw [configure_cache_empty_first conf arg rest hs]
      simp [first_field, hs, starts_with_digit, toLower]
    · obtain ⟨hr, he, hi⟩ := configure_cache_policy conf arg c0 r0 rest hs
      have hne1 : "random".toList ≠ "lru".toList := by decide
      have hne2 : "random".toList ≠ "lfu".toList := by decide
      have hne3 : "lru".toList ≠ "lfu".toList := by decide
      simp only [first_field, hs, List.headD_cons, starts_with_digit]
      rw [hr, hi]
      refine ⟨fun hd => ?_, fun hd => by rw [if_pos hd]⟩
      have hd' : ¬ isDigit c0 = true := by simp [hd]
      rw [if_neg hd']
      refine ⟨?_, ?_, ?_, ?_, ?_⟩
      · intro h; rw [if_pos h]
      · intro h; rw [if_neg (by rw [h]; exact hne1.symm), if_pos h]
      · intro h
        rw [if_neg (by rw [h]; exact hne2.symm), if_neg (by rw [h]; exact hne3.symm), if_pos h]
      · intro h; exact ⟨fun hh => hh.2 h, he⟩
      · intro h1 h2 h3
        rw [if_neg h1, if_neg h2, if_neg h3]
        exact ⟨rfl, Or.inl ⟨hd, fun h => h.elim h1 (fun h => h.elim h2 h3)⟩⟩

theorem configure_cache_replacement_policy_witness :
    (configure_cache CacheConfig.initial ([] ++ ["LRU,4,2,2".toList])).conf.replacement_policy
      = .RP_LRU ∧
    (configure_cache CacheConfig.initial ([] ++ ["fifo,4,2,2".toList])).conf.replacement_policy
        = CacheConfig.initial.replacement_policy ∧
      (CacheError.policy_incorrect ∈
          (configure_cache CacheConfig.initial ([] ++ ["fifo,4,2,2".toList])).errors ∨
        CacheError.policy_empty ∈
          (configure_cache CacheConfig.initial ([] ++ ["fifo,4,2,2".toList])).errors) :=
  ⟨((configure_cache_replacement_policy CacheConfig.initial [] "LRU,4,2,2".toList).1
      (by decide)).2.1 (by decide),
   ((configure_cache_replacement_policy CacheConfig.initial [] "fifo,4,2,2".toList).1
      (by decide)).2.2.2.2 (by decide) (by decide) (by decide)⟩

theorem cache_policy_write_policy (conf : CacheConfig) (errors : List CacheError) (c0 : Char)
    (p0 : QString) (pieces : List QString) :
    (cache_policy conf errors c0 p0 pieces).1.write_policy = conf.write_policy ∧
    (CacheError.write_policy_incorrect ∈ (cache_policy conf errors c0 p0 pieces).2.1 ↔
      CacheError.write_policy_incorrect ∈ errors) := by
  unfold cache_policy
  split_ifs <;> simp

theorem cache_geometry_write_policy (conf : CacheConfig) (errors : List CacheError)
    (pieces : List QString) (hE : CacheError.write_policy_incorrect ∉ errors) :
    (pieces[3]? = none →
      (cache_geometry conf errors pieces).conf.write_policy = conf.write_policy ∧
      CacheError.write_policy_incorrect ∉ (cache_geometry conf errors pieces).errors) ∧
    (∀ w, pieces[3]? = some w →
      (cache_geometry conf errors pieces).fault = none ∧
      (cache_geometry conf errors pieces).conf.write_policy =
        (if toLower w = "wb".toList then .WP_BACK
         else if toLower w = "wt".toList ∨ toLower w = "wtna".toList then .WP_THROUGH_NOALLOC
         else if toLower w = "wta".toList then .WP_THROUGH_ALLOC
         else conf.write_policy) ∧
      (CacheError.write_policy_incorrect ∈ (cache_geometry conf errors pieces).errors ↔
        ¬ (toLower w = "wb".toList ∨ toLower w = "wt".toList ∨ toLower w = "wtna".toList ∨
            toLower w = "wta".toList))) := by
  match pieces with
  | [] => simpa [cache_geometry] using hE
  | [_] => simpa [cache_geometry] using hE
  | [_, _] => simpa [cache_geometry] using hE
  | [p0, p1, p2] =>
    simp only [cache_geometry, cache_write_policy]
    split_ifs <;> simpa using hE
  | p0 :: p1 :: p2 :: p3 :: rest =>
    simp only [cache_geometry, cache_write_policy]
    refine ⟨fun h => by simp at h, fun w hw => ?_⟩
    simp only [List.getElem?_cons_succ, List.getElem?_cons_zero, Option.some.injEq] at hw
    subst hw
    have hl : ¬ (p0 :: p1 :: p2 :: p3 :: rest).length < 3 := by simp
    rw [if_neg hl]
    by_cases h1 : toLower p3 = "wb".toList
    · rw [if_pos h1, if_pos h1]
      refine ⟨rfl, rfl, ?_⟩
      split_ifs <;> simp [hE, h1]
    · rw [if_neg h1, if_neg h1]
      by_cases h2 : toLower p3 = "wt".toList ∨ toLower p3 = "wtna".toList
      · rw [if_pos h2, if_pos h2]
        refine ⟨rfl, rfl, ?_⟩
        have : toLower p3 = "wb".toList ∨ toLower p3 = "wt".toList ∨
            toLower p3 = "wtna".toList ∨ toLower p3 = "wta".toList := by tauto
        split_ifs <;> simp only [not_true_eq_false, iff_false, this] <;> simp [hE]
      · rw [if_neg h2, if_neg h2]
        by_cases h3 : toLower p3 = "wta".toList
        · rw [if_pos h3, if_pos h3]
          refine ⟨rfl, rfl, ?_⟩
          have : toLower p3 = "wb".toList ∨ toLower p3 = "wt".toList ∨
              toLower p3 = "wtna".toList ∨ toLower p3 = "wta".toList := by tauto
          split_ifs <;> simp only [not_true_eq_false, iff_false, this] <;> simp [hE]
        · rw [if_neg h3, if_neg h3]
          refine ⟨rfl, rfl, ?_⟩
          have : ¬ (toLower p3 = "wb".toList ∨ toLower p3 = "wt".toList ∨
              toLower p3 = "wtna".toList ∨ toLower p3 = "wta".toList) := by tauto
          simp only [this, not_false_eq_true, iff_true]
          exact List.mem_append_right _ (List.mem_singleton_self _)

/-- The write policy where lines 124 to 137 are reached.  For a cache argument whose
first field is not empty and that has a fourth field after the optional policy
name, `configure_cache` runs to its end and leaves the write policy `WP_BACK` for
"wb", `WP_THROUGH_NOALLOC` for "wt" and "wtna", `WP_THROUGH_ALLOC` for "wta" (the
field taken in lower case), reporting no write-policy error; for any other fourth
field it reports the write-policy error and leaves the write policy the
configuration had.  Without a fourth field the write policy is the one the
configuration had and no write-policy error is reported. -/
theorem configure_cache_write_policy (conf : CacheConfig) (args : List QString)
    (arg : QString) :
    (first_field arg ≠ [] → ∀ w, (geometry_fields arg)[3]? = some w →
      (configure_cache conf (args ++ [arg])).fault = none ∧
      (toLower w = "wb".toList →
        (configure_cache conf (args ++ [arg])).conf.write_policy = .WP_BACK) ∧
      (toLower w = "wt".toList ∨ toLower w = "wtna".toList →
        (configure_cache conf (args ++ [arg])).conf.write_policy = .WP_THROUGH_NOALLOC) ∧
      (toLower w = "wta".toList →
        (configure_cache conf (args ++ [arg])).conf.write_policy = .WP_THROUGH_ALLOC) ∧
      (toLower w = "wb".toList ∨ toLower w = "wt".toList ∨ toLower w = "wtna".toList ∨
          toLower w = "wta".toList →
        CacheError.write_policy_incorrect ∉ (configure_cache conf (args ++ [arg])).errors) ∧
      (¬ (toLower w = "wb".toList ∨ toLower w = "wt".toList ∨ toLower w = "wtna".toList ∨
          toLower w = "wta".toList) →
        (configure_cache conf (args ++ [arg])).conf.write_policy = conf.write_policy ∧
        CacheError.write_policy_incorrect ∈ (configure_cache conf (args ++ [arg])).errors)) ∧
    ((geometry_fields arg)[3]? = none →
      (configure_cache conf (args ++ [arg])).conf.write_policy = conf.write_policy ∧
      CacheError.write_policy_incorrect ∉ (configure_cache conf (args ++ [arg])).errors) := by
  rw [configure_cache_last]
  rcases hs : split arg with _ | ⟨p0, rest⟩
  · exact absurd hs (split_ne_nil arg)
  · rcases p0 with _ | ⟨c0, r0⟩
    · rw [configure_cache_empty_first conf arg rest hs]
      refine ⟨fun h => absurd ?_ h, fun _ => ⟨rfl, ?_⟩⟩
      · simp [first_field, hs]
      · split_ifs <;> simp
    · rw [configure_cache_first_char conf arg c0 r0 rest hs]
      have hin : CacheError.write_policy_incorrect ∉
          (if ((c0 :: r0) :: rest).length < 3 then [CacheError.parameters_incorrect] else []) := by
        split_ifs <;> simp
      generalize (if ((c0 :: r0) :: rest).length < 3 then [CacheError.parameters_incorrect]
        else []) = E at hin
      obtain ⟨hw, he⟩ := cache_policy_write_policy { conf with enabled := true } E c0 (c0 :: r0)
        ((c0 :: r0) :: rest)
      have hE := fun h => hin (he.1 h)
      obtain ⟨g1, g2⟩ := cache_geometry_write_policy
        (cache_policy { conf with enabled := true } E c0 (c0 :: r0) ((c0 :: r0) :: rest)).1
        (cache_policy { conf with enabled := true } E c0 (c0 :: r0) ((c0 :: r0) :: rest)).2.1
        (cache_policy { conf with enabled := true } E c0 (c0 :: r0) ((c0 :: r0) :: rest)).2.2 hE
      have hg : geometry_fields arg =
          (cache_policy { conf with enabled := true } E c0 (c0 :: r0) ((c0 :: r0) :: rest)).2.2 := by
        rw [cache_policy_pieces]
        simp only [geometry_fields, hs]
        split_ifs <;> rfl
      rw [hg]
      rw [hw] at g1 g2
      have hne1 : "wb".toList ≠ "wt".toList := by decide
      have hne2 : "wb".toList ≠ "wtna".toList := by decide
      have hne3 : "wb".toList ≠ "wta".toList := by decide
      have hne4 : "wt".toList ≠ "wta".toList := by decide
      have hne5 : "wtna".toList ≠ "wta".toList := by decide
      refine ⟨fun _ w hw3 => ?_, g1⟩
      obtain ⟨f1, f2, f3⟩ := g2 w hw3
      rw [f2, f3]
      refine ⟨f1, ?_, ?_, ?_, ?_, ?_⟩
      · intro h; rw [if_pos h]
      · intro h
        have h1 : ¬ toLower w = "wb".toList := by
          rcases h with h | h <;> rw [h] <;> [exact hne1.symm; exact hne2.symm]
        rw [if_neg h1, if_pos h]
      · intro h
        have h1 : ¬ toLower w = "wb".toList := by rw [h]; exact hne3.symm
        have h2 : ¬ (toLower w = "wt".toList ∨ toLower w = "wtna".toList) := by
          rw [h]; exact fun h' => h'.elim hne4.symm hne5.symm
        rw [if_neg h1, if_neg h2, if_pos h]
      · intro h hh; exact hh h
      · intro h
        have h1 : ¬ toLower w = "wb".toList := fun h' => h (Or.inl h')
        have h2 : ¬ (toLower w = "wt".toList ∨ toLower w = "wtna".toList) :=
          fun h' => h (h'.elim (fun a => Or.inr (Or.inl a)) (fun a => Or.inr (Or.inr (Or.inl a))))
        have h3 : ¬ toLower w = "wta".toList := fun h' => h (Or.inr (Or.inr (Or.inr h')))
        rw [if_neg h1, if_neg h2, if_neg h3]
        exact ⟨rfl, h⟩

theorem configure_cache_write_policy_witness :
    (configure_cache CacheConfig.initial ([] ++ ["lru,4,2,2,WB".toList])).conf.write_policy
      = .WP_BACK ∧
    (configure_cache CacheConfig.initial ([] ++ ["4,2,2,wta".toList])).conf.write_policy
      = .WP_THROUGH_ALLOC ∧
    ((configure_cache CacheConfig.initial ([] ++ ["lru,4,2,2,x".toList])).conf.write_policy
        = CacheConfig.initial.write_policy ∧
      CacheError.write_policy_incorrect ∈
        (configure_cache CacheConfig.initial ([] ++ ["lru,4,2,2,x".toList])).errors) :=
  ⟨((configure_cache_write_policy CacheConfig.initial [] "lru,4,2,2,WB".toList).1
      (by decide) "WB".toList (by decide)).2.1 (by decide),
   ((configure_cache_write_policy CacheConfig.initial [] "4,2,2,wta".toList).1
      (by decide) "wta".toList (by decide)).2.2.2.1 (by decide),
   ((configure_cache_write_policy CacheConfig.initial [] "lru,4,2,2,x".toList).1
      (by decide) "x".toList (by decide)).2.2.2.2.2 (by decide)⟩

/-- The flag `trace_fetch` after `configure_tracer`: set by `trace-fetch`, and also
by `trace-execute` on a pipelined core (line 203). -/
theorem configure_tracer_trace_fetch (REGISTER_COUNT : Nat) (p : QCommandLineParser)
    (tr : Tracer) :
    (configure_tracer REGISTER_COUNT p tr).tr.trace_fetch =
      (tr.trace_fetch || p.isSet .trace_fetch ||
        (p.isSet .pipelined && p.isSet .trace_execute)) := by
  have hgp : ∀ (gps : List QString) (run : TracerRun),
      (configure_tracer_gp REGISTER_COUNT gps run).tr.trace_fetch = run.tr.trace_fetch := by
    intro gps
    induction gps with
    | nil => intro run; rfl
    | cons gp gps ih =>
      intro run
      simp only [configure_tracer_gp]
      split_ifs <;> simp [ih]
  rw [configure_tracer, hgp]
  simp only [configure_tracer_flags, apply_ite Tracer.trace_fetch, ite_self]
  cases p.isSet .trace_fetch <;> cases p.isSet .pipelined <;> cases p.isSet .trace_execute <;>
    simp

/-- Claim C4, the code at the failing input.  With `pipelined` and `trace-execute`
given and `trace-fetch` not given, `configure_tracer` sets `trace_fetch`. -/
theorem configure_tracer_execute_sets_fetch :
    (command_line [(.pipelined, none), (.trace_execute, none)]).isSet .trace_fetch = false ∧
    Tracer.initial.trace_fetch = false ∧
    (configure_tracer 32 (command_line [(.pipelined, none), (.trace_execute, none)])
      Tracer.initial).tr.trace_fetch = true := by
  decide

/-- Claim C10, the code at the failing input.  With 32 registers, the `trace-gp`
value "32" passes the test `num <= REGISTER_COUNT` of line 218 and
`regs_to_trace.at(32)` is outside the 32 entries of the array. -/
theorem configure_tracer_gp_register_count :
    Tracer.initial.regs_to_trace.length = 32 ∧
    (configure_tracer 32 (command_line [(.trace_gp, some "32".toList)]) Tracer.initial)
      = ⟨{ Tracer.initial with trace_regs_gp := true }, [], some 32⟩ := by
  decide

/-! ## Reporter -/

/-- Claim C5, the code at the failing input.  For the `fail-match` value "A",
`configure_reporter` reports "Unknown fail condition: A" and calls `expect_fail`
with a reason that was never assigned. -/
theorem configure_reporter_fail_match_A :
    configure_reporter (command_line [(.fail_match, some "A".toList)]) Reporter.initial none
      = ⟨{ Reporter.initial with expected_fails := [none] }, [.unknown_fail_condition 'A']⟩ := by
  decide

/-! ## OS emulation -/

/-- Claim C6.  After `configure_osemu` the syscall cause has step-over on,
stop-on-exception off and the OS-emulation handler registered when OS emulation is
enabled; it has step-over off, stop-on-exception equal to
`config.osemu_exception_stop()` and the handlers as they were when it is disabled.
In both cases the two flags of the syscall cause are not both on, and the flags and
the handler of every other cause are as they were. -/
theorem configure_osemu_syscall (can_open : QString → Bool) (p : QCommandLineParser)
    (config : MachineConfig) (machine : Machine) :
    (config.osemu_enable = true →
      (configure_osemu can_open p config machine).1.step_over_exception .EXCAUSE_SYSCALL = true ∧
      (configure_osemu can_open p config machine).1.stop_on_exception .EXCAUSE_SYSCALL = false ∧
      (configure_osemu can_open p config machine).1.handlers .EXCAUSE_SYSCALL =
        some ⟨config.osemu_known_syscall_stop, config.osemu_unknown_syscall_stop,
          config.osemu_fs_root, (p.values .std_out).getLast?⟩) ∧
    (config.osemu_enable = false →
      (configure_osemu can_open p config machine).1.step_over_exception .EXCAUSE_SYSCALL = false ∧
      (configure_osemu can_open p config machine).1.stop_on_exception .EXCAUSE_SYSCALL =
        config.osemu_exception_stop ∧
      (configure_osemu can_open p config machine).1.handlers = machine.handlers) ∧
    ¬ ((configure_osemu can_open p config machine).1.step_over_exception .EXCAUSE_SYSCALL = true ∧
      (configure_osemu can_open p config machine).1.stop_on_exception .EXCAUSE_SYSCALL = true) ∧
    (∀ cause, cause ≠ .EXCAUSE_SYSCALL →
      (configure_osemu can_open p config machine).1.step_over_exception cause =
        machine.step_over_exception cause ∧
      (configure_osemu can_open p config machine).1.stop_on_exception cause =
        machine.stop_on_exception cause ∧
      (configure_osemu can_open p config machine).1.handlers cause = machine.handlers cause) := by
  cases h : config.osemu_enable <;>
    simp [configure_osemu, h, Machine.register_exception_handler,
      Machine.set_step_over_exception, Machine.set_stop_on_exception] <;>
    intro cause hc <;> simp [hc]

theorem configure_osemu_syscall_witness :
    ((configure_osemu (fun _ => true) (command_line []) MachineConfig.initial
        Machine.initial).1.step_over_exception .EXCAUSE_SYSCALL = true ∧
      (configure_osemu (fun _ => true) (command_line []) MachineConfig.initial
        Machine.initial).1.stop_on_exception .EXCAUSE_SYSCALL = false ∧
      (configure_osemu (fun _ => true) (command_line []) MachineConfig.initial
        Machine.initial).1.handlers .EXCAUSE_SYSCALL =
        some ⟨MachineConfig.initial.osemu_known_syscall_stop,
          MachineConfig.initial.osemu_unknown_syscall_stop,
          MachineConfig.initial.osemu_fs_root, ((command_line []).values .std_out).getLast?⟩) ∧
    ((configure_osemu (fun _ => true) (command_line [])
        { MachineConfig.initial with osemu_enable := false, osemu_exception_stop := true }
        Machine.initial).1.step_over_exception .EXCAUSE_SYSCALL = false ∧
      (configure_osemu (fun _ => true) (command_line [])
        { MachineConfig.initial with osemu_enable := false, osemu_exception_stop := true }
        Machine.initial).1.stop_on_exception .EXCAUSE_SYSCALL = true ∧
      (configure_osemu (fun _ => true) (command_line [])
        { MachineConfig.initial with osemu_enable := false, osemu_exception_stop := true }
        Machine.initial).1.handlers = Machine.initial.handlers) :=
  ⟨(configure_osemu_syscall (fun _ => true) (command_line []) MachineConfig.initial
      Machine.initial).1 rfl,
   (configure_osemu_syscall (fun _ => true) (command_line [])
      { MachineConfig.initial with osemu_enable := false, osemu_exception_stop := true }
      Machine.initial).2.1 rfl⟩

/-! ## Machine configuration -/

theorem digitValue_of_isDigit (c : Char) (h : isDigit c = true) :
    digitValue c = some (c.toNat - 48) ∧ c.toNat - 48 < 10 := by
  simp only [isDigit, Bool.and_eq_true, decide_eq_true_eq] at h
  simp only [digitValue, h, and_self, if_true, true_and]
  omega

theorem isSpace_of_isDigit (c : Char) (h : isDigit c = true) : isSpace c = false := by
  simp only [isDigit, Bool.and_eq_true, decide_eq_true_eq] at h
  simp only [isSpace, Bool.or_eq_false_iff, beq_eq_false_iff_ne, Bool.and_eq_false_iff,
    decide_eq_false_iff_not]
  omega

theorem digitsValue_decimal (s : List Char) (hs : ∀ c ∈ s, isDigit c = true) (acc : Nat) :
    digitsValue 10 s acc = some (s.foldl (fun acc c => acc * 10 + (c.toNat - 48)) acc) := by
  induction s generalizing acc with
  | nil => rfl
  | cons c cs ih =>
    obtain ⟨h1, h2⟩ := digitValue_of_isDigit c (hs c (List.mem_cons_self _ _))
    simp only [digitsValue, h1, h2, if_true, List.foldl_cons]
    exact ih (fun d hd => hs d (List.mem_cons_of_mem _ hd)) _

theorem dropWhile_head_false {α : Type} (p : α → Bool) (l : List α)
    (h : ∀ a ∈ l.head?, p a = false) : l.dropWhile p = l := by
  cases l with
  | nil => rfl
  | cons a as => simp [List.dropWhile, h a (by simp)]

theorem trimSpaces_of_ends (s : List Char) (h1 : ∀ c ∈ s.head?, isSpace c = false)
    (h2 : ∀ c ∈ s.getLast?, isSpace c = false) : trimSpaces s = s := by
  unfold trimSpaces
  rw [dropWhile_head_false isSpace s h1, dropWhile_head_false isSpace s.reverse, List.reverse_reverse]
  simpa using h2

theorem trimSpaces_decimal (s : List Char) (hs : ∀ c ∈ s, isDigit c = true) :
    trimSpaces s = s := by
  apply trimSpaces_of_ends
  · intro c hc
    exact isSpace_of_isDigit c (hs c (List.mem_of_mem_head? hc))
  · intro c hc
    exact isSpace_of_isDigit c (hs c (List.mem_of_mem_getLast? hc))

theorem toUInt_decimal (s : QString) (hs : is_decimal s) (h32 : decimal_value s < 2 ^ 32) :
    toUInt s = some (decimal_value s) := by
  obtain ⟨hne, hd⟩ := hs
  have hq : qstrtoull 10 s = some (decimal_value s) := by
    unfold qstrtoull
    rw [trimSpaces_decimal s hd]
    cases s with
    | nil => exact absurd rfl hne
    | cons c cs =>
      have hc : c ≠ '+' := by
        intro h
        have := hd c (List.mem_cons_self _ _)
        rw [h] at this
        exact absurd this (by decide)
      have hb : (match c :: cs with
          | '+' :: r => r
          | r => r) = c :: cs := by
        split
        · rename_i r heq
          simp only [List.cons.injEq] at heq
          exact absurd heq.1 hc
        · rfl
      simp only [hb, parseMagnitude, detectBase, parseNat, digitsValue_decimal (c :: cs) hd 0]
      have : decimal_value (c :: cs) < 2 ^ 64 := lt_trans h32 (by norm_num)
      simp only [decimal_value] at this ⊢
      rw [if_pos this]
  unfold toUInt
  rw [hq]
  simp only [h32, if_true]

theorem parse_u32_option_errors (parser : QCommandLineParser) (option_name : OptionName)
    (config : MachineConfig) (setter : MachineConfig → Nat → MachineConfig) (e : MachineError) :
    e ∈ (parse_u32_option parser option_name config setter).2 ↔
      e = .not_unsigned option_name ∧
        ∃ last, (parser.values option_name).getLast? = some last ∧ toUInt last = none := by
  unfold parse_u32_option
  cases (parser.values option_name).getLast? with
  | none => simp
  | some last => cases h : toUInt last <;> simp [h]

theorem parse_u32_option_read (parser : QCommandLineParser) (config : MachineConfig) :
    (parse_u32_option parser .read_time config
        MachineConfig.set_memory_access_time_read).1.memory_access_time_read =
      (match (parser.values .read_time).getLast? with
        | none => config.memory_access_time_read
        | some last => (toUInt last).getD config.memory_access_time_read) ∧
    (parse_u32_option parser .read_time config
        MachineConfig.set_memory_access_time_read).1.memory_access_time_write =
      config.memory_access_time_write ∧
    (parse_u32_option parser .read_time config
        MachineConfig.set_memory_access_time_read).1.memory_access_time_burst =
      config.memory_access_time_burst := by
  unfold parse_u32_option
  cases (parser.values .read_time).getLast? with
  | none => simp
  | some last => cases h : toUInt last <;> simp [h, MachineConfig.set_memory_access_time_read]

theorem parse_u32_option_write (parser : QCommandLineParser) (config : MachineConfig) :
    (parse_u32_option parser .write_time config
        MachineConfig.set_memory_access_time_write).1.memory_access_time_write =
      (match (parser.values .write_time).getLast? with
        | none => config.memory_access_time_write
        | some last => (toUInt last).getD config.memory_access_time_write) ∧
    (parse_u32_option parser .write_time config
        MachineConfig.set_memory_access_time_write).1.memory_access_time_read =
      config.memory_access_time_read ∧
    (parse_u32_option parser .write_time config
        MachineConfig.set_memory_access_time_write).1.memory_access_time_burst =
      config.memory_access_time_burst := by
  unfold parse_u32_option
  cases (parser.values .write_time).getLast? with
  | none => simp
  | some last => cases h : toUInt last <;> simp [h, MachineConfig.set_memory_access_time_write]

theorem parse_u32_option_burst (parser : QCommandLineParser) (config : MachineConfig) :
    (parse_u32_option parser .burst_time config
        MachineConfig.set_memory_access_time_burst).1.memory_access_time_burst =
      (match (parser.values .burst_time).getLast? with
        | none => config.memory_access_time_burst
        | some last => (toUInt last).getD config.memory_access_time_burst) ∧
    (parse_u32_option parser .burst_time config
        MachineConfig.set_memory_access_time_burst).1.memory_access_time_read =
      config.memory_access_time_read ∧
    (parse_u32_option parser .burst_time config
        MachineConfig.set_memory_access_time_burst).1.memory_access_time_write =
      config.memory_access_time_write := by
  unfold parse_u32_option
  cases (parser.values .burst_time).getLast? with
  | none => simp
  | some last => cases h : toUInt last <;> simp [h, MachineConfig.set_memory_access_time_burst]

theorem configure_hazard_unit_result (set_hazard_unit : QString → Option HazardUnit)
    (parser : QCommandLineParser) (config : MachineConfig) :
    (configure_hazard_unit set_hazard_unit parser config).1.memory_access_time_read =
      config.memory_access_time_read ∧
    (configure_hazard_unit set_hazard_unit parser config).1.memory_access_time_write =
      config.memory_access_time_write ∧
    (configure_hazard_unit set_hazard_unit parser config).1.memory_access_time_burst =
      config.memory_access_time_burst ∧
    ∀ n, MachineError.not_unsigned n ∉ (configure_hazard_unit set_hazard_unit parser config).2 := by
  unfold configure_hazard_unit
  cases (parser.values .hazard_unit).getLast? with
  | none => simp
  | some last => cases h : set_hazard_unit (toLower last) <;> simp [h]

/-- The three memory timings and the errors of `configure_machine_timing`, each
timing in terms of the last value of its own option. -/
theorem configure_machine_timing_result (set_hazard_unit : QString → Option HazardUnit)
    (parser : QCommandLineParser) (config : MachineConfig) :
    (configure_machine_timing set_hazard_unit parser config).1.memory_access_time_read =
      (match (parser.values .read_time).getLast? with
        | none => config.memory_access_time_read
        | some last => (toUInt last).getD config.memory_access_time_read) ∧
    (configure_machine_timing set_hazard_unit parser config).1.memory_access_time_write =
      (match (parser.values .write_time).getLast? with
        | none => config.memory_access_time_write
        | some last => (toUInt last).getD config.memory_access_time_write) ∧
    (configure_machine_timing set_hazard_unit parser config).1.memory_access_time_burst =
      (match (parser.values .burst_time).getLast? with
        | none => config.memory_access_time_burst
        | some last => (toUInt last).getD config.memory_access_time_burst) ∧
    (∀ option_name, option_name = OptionName.read_time ∨ option_name = OptionName.write_time ∨
        option_name = OptionName.burst_time →
      (MachineError.not_unsigned option_name ∈
          (configure_machine_timing set_hazard_unit parser config).2 ↔
        ∃ last, (parser.values option_name).getLast? = some last ∧ toUInt last = none)) := by
  simp only [configure_machine_timing]
  have h0 := configure_hazard_unit_result set_hazard_unit parser
  refine ⟨?_, ?_, ?_, ?_⟩
  · rw [(parse_u32_option_burst _ _).2.1, (parse_u32_option_write _ _).2.1,
      (parse_u32_option_read _ _).1, (h0 _).1]
  · rw [(parse_u32_option_burst _ _).2.2, (parse_u32_option_write _ _).1,
      (parse_u32_option_read _ _).2.1, (h0 _).2.1]
  · rw [(parse_u32_option_burst _ _).1, (parse_u32_option_write _ _).2.2,
      (parse_u32_option_read _ _).2.2, (h0 _).2.2.1]
  · intro n hn
    simp only [List.mem_append, parse_u32_option_errors, (h0 _).2.2.2 n, false_or,
      MachineError.not_unsigned.injEq]
    rcases hn with h | h | h <;> subst h <;> simp

theorem configure_machine_osemu_timing (parser : QCommandLineParser) (config : MachineConfig) :
    (configure_machine_osemu parser config).memory_access_time_read =
      config.memory_access_time_read ∧
    (configure_machine_osemu parser config).memory_access_time_write =
      config.memory_access_time_write ∧
    (configure_machine_osemu parser config).memory_access_time_burst =
      config.memory_access_time_burst := by
  unfold configure_machine_osemu
  cases (parser.values .os_fs_root).getLast? with
  | none => simp
  | some root => simp only []; split_ifs <;> simp

theorem configure_machine_keeps_timing (set_hazard_unit : QString → Option HazardUnit)
    (parser : QCommandLineParser) (config : MachineConfig) (elf : QString)
    (h : parser.positionalArguments = [elf]) :
    (configure_machine set_hazard_unit parser config).config.memory_access_time_read =
      (configure_machine_timing set_hazard_unit parser
        { config with elf := elf }).1.memory_access_time_read ∧
    (configure_machine set_hazard_unit parser config).config.memory_access_time_write =
      (configure_machine_timing set_hazard_unit parser
        { config with elf := elf }).1.memory_access_time_write ∧
    (configure_machine set_hazard_unit parser config).config.memory_access_time_burst =
      (configure_machine_timing set_hazard_unit parser
        { config with elf := elf }).1.memory_access_time_burst ∧
    ∀ n, (MachineError.not_unsigned n ∈ (configure_machine set_hazard_unit parser config).errors ↔
      MachineError.not_unsigned n ∈
        (configure_machine_timing set_hazard_unit parser { config with elf := elf }).2) := by
  simp only [configure_machine, h]
  split
  · simp
  · split
    · simp
    · simp [configure_machine_osemu_timing]

/-- Claim C8.  With one positional argument given, for each of `read-time`,
`write-time` and `burst-time`: when `toUInt` accepts the last value of the option,
`configure_machine` leaves the timing of that option (read, write, burst
respectively) equal to the value, and reports no error for the option; when
`toUInt` rejects it, the error "not a valid unsigned integer" is reported for the
option and the timing is the one the configuration had; when the option is absent
the timing is the one the configuration had.  Each timing depends on its own
option only.  Every decimal numeral below `2^32` is accepted by `toUInt` with its
value. -/
theorem configure_machine_memory_timing (set_hazard_unit : QString → Option HazardUnit)
    (parser : QCommandLineParser) (config : MachineConfig) (elf : QString)
    (h : parser.positionalArguments = [elf]) :
    ((∀ last value, (parser.values .read_time).getLast? = some last → toUInt last = some value →
        (configure_machine set_hazard_unit parser config).config.memory_access_time_read = value ∧
        MachineError.not_unsigned .read_time ∉
          (configure_machine set_hazard_unit parser config).errors) ∧
      (∀ last, (parser.values .read_time).getLast? = some last → toUInt last = none →
        (configure_machine set_hazard_unit parser config).config.memory_access_time_read =
          config.memory_access_time_read ∧
        MachineError.not_unsigned .read_time ∈
          (configure_machine set_hazard_unit parser config).errors) ∧
      (parser.values .read_time = [] →
        (configure_machine set_hazard_unit parser config).config.memory_access_time_read =
          config.memory_access_time_read)) ∧
    ((∀ last value, (parser.values .write_time).getLast? = some last → toUInt last = some value →
        (configure_machine set_hazard_unit parser config).config.memory_access_time_write = value ∧
        MachineError.not_unsigned .write_time ∉
          (configure_machine set_hazard_unit parser config).errors) ∧
      (∀ last, (parser.values .write_time).getLast? = some last → toUInt last = none →
        (configure_machine set_hazard_unit parser config).config.memory_access_time_write =
          config.memory_access_time_write ∧
        MachineError.not_unsigned .write_time ∈
          (configure_machine set_hazard_unit parser config).errors) ∧
      (parser.values .write_time = [] →
        (configure_machine set_hazard_unit parser config).config.memory_access_time_write =
          config.memory_access_time_write)) ∧
    ((∀ last value, (parser.values .burst_time).getLast? = some last → toUInt last = some value →
        (configure_machine set_hazard_unit parser config).config.memory_access_time_burst = value ∧
        MachineError.not_unsigned .burst_time ∉
          (configure_machine set_hazard_unit parser config).errors) ∧
      (∀ last, (parser.values .burst_time).getLast? = some last → toUInt last = none →
        (configure_machine set_hazard_unit parser config).config.memory_access_time_burst =
          config.memory_access_time_burst ∧
        MachineError.not_unsigned .burst_time ∈
          (configure_machine set_hazard_unit parser config).errors) ∧
      (parser.values .burst_time = [] →
        (configure_machine set_hazard_unit parser config).config.memory_access_time_burst =
          config.memory_access_time_burst)) ∧
    (∀ s, is_decimal s → decimal_value s < 2 ^ 32 → toUInt s = some (decimal_value s)) := by
  obtain ⟨k1, k2, k3, k4⟩ := configure_machine_keeps_timing set_hazard_unit parser config elf h
  obtain ⟨t1, t2, t3, t4⟩ := configure_machine_timing_result set_hazard_unit parser
    { config with elf := elf }
  rw [k1, k2, k3, t1, t2, t3]
  simp only [k4, t4 .read_time (Or.inl rfl), t4 .write_time (Or.inr (Or.inl rfl)),
    t4 .burst_time (Or.inr (Or.inr rfl))]
  refine ⟨⟨?_, ?_, ?_⟩, ⟨?_, ?_, ?_⟩, ⟨?_, ?_, ?_⟩, toUInt_decimal⟩
  · intro last value h1 h2; simp [h1, h2]
  · intro last h1 h2; simp [h1, h2]
  · intro h1; simp [h1]
  · intro last value h1 h2; simp [h1, h2]
  · intro last h1 h2; simp [h1, h2]
  · intro h1; simp [h1]
  · intro last value h1 h2; simp [h1, h2]
  · intro last h1 h2; simp [h1, h2]
  · intro h1; simp [h1]

theorem configure_machine_memory_timing_witness :
    ((configure_machine (fun _ => none)
        (command_line [(.read_time, some "7".toList), (.write_time, some "x".toList),
          (.read_time, some "25".toList)])
        MachineConfig.initial).config.memory_access_time_read = 25 ∧
      MachineError.not_unsigned .read_time ∉
        (configure_machine (fun _ => none)
          (command_line [(.read_time, some "7".toList), (.write_time, some "x".toList),
            (.read_time, some "25".toList)])
          MachineConfig.initial).errors) ∧
    ((configure_machine (fun _ => none)
        (command_line [(.read_time, some "7".toList), (.write_time, some "x".toList),
          (.read_time, some "25".toList)])
        MachineConfig.initial).config.memory_access_time_write =
        MachineConfig.initial.memory_access_time_write ∧
      MachineError.not_unsigned .write_time ∈
        (configure_machine (fun _ => none)
          (command_line [(.read_time, some "7".toList), (.write_time, some "x".toList),
            (.read_time, some "25".toList)])
          MachineConfig.initial).errors) ∧
    (configure_machine (fun _ => none)
        (command_line [(.read_time, some "7".toList), (.write_time, some "x".toList),
          (.read_time, some "25".toList)])
        MachineConfig.initial).config.memory_access_time_burst =
      MachineConfig.initial.memory_access_time_burst :=
  ⟨(configure_machine_memory_timing (fun _ => none)
      (command_line [(.read_time, some "7".toList), (.write_time, some "x".toList),
        (.read_time, some "25".toList)])
      MachineConfig.initial "prog.elf".toList rfl).1.1 "25".toList 25 (by decide) (by decide),
   (configure_machine_memory_timing (fun _ => none)
      (command_line [(.read_time, some "7".toList), (.write_time, some "x".toList),
        (.read_time, some "25".toList)])
      MachineConfig.initial "prog.elf".toList rfl).2.1.2.1 "x".toList (by decide) (by decide),
   (configure_machine_memory_timing (fun _ => none)
      (command_line [(.read_time, some "7".toList), (.write_time, some "x".toList),
        (.read_time, some "25".toList)])
      MachineConfig.initial "prog.elf".toList rfl).2.2.1.2.2 (by decide)⟩

/-! ## Dump ranges -/

theorem indexOfAux_not_mem (c : Char) (s : List Char) (i : Nat) (h : c ∉ s) :
    indexOfAux c s i = -1 := by
  induction s generalizing i with
  | nil => rfl
  | cons x xs ih =>
    simp only [List.mem_cons, not_or] at h
    simp only [indexOfAux, if_neg (Ne.symm h.1)]
    exact ih _ h.2

theorem indexOfAux_first (c : Char) (s rest : List Char) (i : Nat) (h : c ∉ s) :
    indexOfAux c (s ++ c :: rest) i = ((i + s.length : Nat) : Int) := by
  induction s generalizing i with
  | nil => simp [indexOfAux]
  | cons x xs ih =>
    simp only [List.mem_cons, not_or] at h
    show indexOfAux c (x :: (xs ++ c :: rest)) i = _
    simp only [indexOfAux, if_neg (Ne.symm h.1), List.length_cons]
    rw [ih _ h.2]
    congr 1
    omega

theorem indexOf_zero_not_mem (c : Char) (s : QString) (h : c ∉ s) : indexOf s c 0 = -1 := by
  simp [indexOf, indexOfAux_not_mem c s 0 h]

theorem indexOf_zero_first (c : Char) (s rest : QString) (h : c ∉ s) :
    indexOf (s ++ c :: rest) c 0 = (s.length : Int) := by
  simp [indexOf, indexOfAux_first c s rest 0 h]

theorem indexOf_after_first (c : Char) (s rest : QString) :
    indexOf (s ++ c :: rest) c ((s.length : Int) + 1) =
      indexOfAux c rest (s.length + 1) := by
  have h : ¬ ((s.length : Int) + 1 < 0) := by omega
  simp only [indexOf, if_neg h]
  have : ((s.length : Int) + 1).toNat = s.length + 1 := by omega
  rw [this]
  congr 1
  rw [← List.drop_drop]
  simp

theorem mid_zero_take (s : QString) (n : Nat) (h : n ≤ s.length) :
    mid s 0 (n : Int) = s.take n := by
  unfold mid
  have h1 : ¬ ((0 : Int) > s.length) := by omega
  have h2 : ¬ ((0 : Int) < 0) := by omega
  have h3 : ¬ ((n : Int) < 0 ∨ (n : Int) > s.length - 0) := by omega
  rw [if_neg h1, if_neg h2, if_neg h3]
  simp

theorem mid_drop_take (s : QString) (k n : Nat) (h : k + n ≤ s.length) :
    mid s (k : Int) (n : Int) = (s.drop k).take n := by
  unfold mid
  have h1 : ¬ ((k : Int) > s.length) := by omega
  have h2 : ¬ ((k : Int) < 0) := by omega
  have h3 : ¬ ((n : Int) < 0 ∨ (n : Int) > s.length - k) := by omega
  rw [if_neg h1, if_neg h2, if_neg h3]
  simp

theorem mid_rest (s : QString) (k : Nat) (h : k ≤ s.length) :
    mid s (k : Int) (-1) = s.drop k := by
  unfold mid
  have h1 : ¬ ((k : Int) > s.length) := by omega
  have h2 : ¬ ((k : Int) < 0) := by omega
  have h3 : ((-1 : Int) < 0 ∨ (-1 : Int) > s.length - k) := Or.inl (by omega)
  rw [if_neg h1, if_neg h2, if_pos h3]
  simp

theorem range_number_numeric (symtab : Option SymbolTable) (s : QString) (v : Nat)
    (h : is_numeric s v) : range_number symtab s = (true, v) := by
  obtain ⟨hd, hv⟩ := h
  unfold range_number
  cases s with
  | nil => simp [starts_with_digit] at hd
  | cons c cs =>
    simp only [starts_with_digit] at hd
    cases symtab <;> simp [hd, hv]

theorem dump_range_of_numeric (symtab : Option SymbolTable) (arg : QString) (start len : Nat)
    (fname : QString) (h : is_dump_range_arg arg start len fname) :
    dump_range_of symtab arg = (⟨start, len, fname⟩, []) := by
  obtain ⟨s, l, rfl, hs, hl, hns, hnl⟩ := h
  have c1 : indexOf (s ++ ',' :: (l ++ ',' :: fname)) ',' 0 = (s.length : Int) :=
    indexOf_zero_first ',' s _ hs
  have c2 : indexOf (s ++ ',' :: (l ++ ',' :: fname)) ',' ((s.length : Int) + 1) =
      ((s.length + 1 + l.length : Nat) : Int) := by
    rw [indexOf_after_first, indexOfAux_first ',' l fname _ hl]
  have m1 : mid (s ++ ',' :: (l ++ ',' :: fname)) 0 (s.length : Int) = s := by
    rw [mid_zero_take _ _ (by simp)]
    simp
  have m2 : mid (s ++ ',' :: (l ++ ',' :: fname)) ((s.length : Int) + 1)
      (((s.length + 1 + l.length : Nat) : Int) - (s.length : Int) - 1) = l := by
    have e1 : ((s.length : Int) + 1) = ((s.length + 1 : Nat) : Int) := by omega
    have e2 : (((s.length + 1 + l.length : Nat) : Int) - (s.length : Int) - 1) =
        ((l.length : Nat) : Int) := by omega
    rw [e1, e2, mid_drop_take _ _ _ (by simp; omega), ← List.drop_drop]
    simp
  have m3 : mid (s ++ ',' :: (l ++ ',' :: fname)) (((s.length + 1 + l.length : Nat) : Int) + 1)
      (-1) = fname := by
    have e1 : (((s.length + 1 + l.length : Nat) : Int) + 1) =
        ((s.length + 1 + (l.length + 1) : Nat) : Int) := by omega
    rw [e1, mid_rest _ _ (by simp; omega), ← List.drop_drop, ← List.drop_drop]
    simp
  simp only [dump_range_of, c1, c2, m1, m2, m3, range_number_numeric symtab s start hns,
    range_number_numeric symtab l len hnl]
  have n1 : ¬ ((s.length : Int) < 0) := by omega
  have n2 : ¬ (((s.length + 1 + l.length : Nat) : Int) < 0) := by omega
  simp only [n1, n2, if_false, Bool.not_true, Bool.false_eq_true, or_self, List.append_nil]

theorem exists_first_occurrence (c : Char) (arg : List Char) (h : c ∈ arg) :
    ∃ s rest, arg = s ++ c :: rest ∧ c ∉ s := by
  induction arg with
  | nil => simp at h
  | cons x xs ih =>
    by_cases hx : x = c
    · exact ⟨[], xs, by simp [hx], by simp⟩
    · have hm : c ∈ xs := by
        rcases List.mem_cons.1 h with h | h
        · exact absurd h.symm hx
        · exact h
      obtain ⟨s, rest, he, hs⟩ := ih hm
      refine ⟨x :: s, rest, by simp [he], ?_⟩
      simp only [List.mem_cons, not_or]
      exact ⟨fun h => hx h.symm, hs⟩

theorem dump_range_of_few_commas (symtab : Option SymbolTable) (arg : QString)
    (h : arg.count ',' < 2) :
    ReporterError.range_length_missing ∈ (dump_range_of symtab arg).2 := by
  have key : indexOf arg ',' (indexOf arg ',' 0 + 1) < 0 := by
    by_cases hm : ',' ∈ arg
    · obtain ⟨s, rest, rfl, hs⟩ := exists_first_occurrence ',' arg hm
      have hr : ',' ∉ rest := by
        intro hr
        have h1 : 0 < rest.count ',' := List.count_pos_iff.2 hr
        simp only [List.count_append, List.count_cons_self] at h
        omega
      rw [indexOf_zero_first ',' s rest hs, indexOf_after_first, indexOfAux_not_mem ',' rest _ hr]
      omega
    · rw [indexOf_zero_not_mem ',' arg hm]
      simp only [Int.reduceNeg, neg_add_cancel]
      rw [indexOf_zero_not_mem ',' arg hm]
      omega
  simp only [dump_range_of, if_pos key]
  simp

theorem dump_range_of_not_parsed (symtab : Option SymbolTable) (s l fname : QString)
    (hs : ',' ∉ s) (hl : ',' ∉ l)
    (h : (range_number symtab s).1 = false ∨ (range_number symtab l).1 = false) :
    ReporterError.range_specification_error ∈
      (dump_range_of symtab (s ++ ',' :: (l ++ ',' :: fname))).2 := by
  have c1 : indexOf (s ++ ',' :: (l ++ ',' :: fname)) ',' 0 = (s.length : Int) :=
    indexOf_zero_first ',' s _ hs
  have c2 : indexOf (s ++ ',' :: (l ++ ',' :: fname)) ',' ((s.length : Int) + 1) =
      ((s.length + 1 + l.length : Nat) : Int) := by
    rw [indexOf_after_first, indexOfAux_first ',' l fname _ hl]
  have m1 : mid (s ++ ',' :: (l ++ ',' :: fname)) 0 (s.length : Int) = s := by
    rw [mid_zero_take _ _ (by simp)]
    simp
  have m2 : mid (s ++ ',' :: (l ++ ',' :: fname)) ((s.length : Int) + 1)
      (((s.length + 1 + l.length : Nat) : Int) - (s.length : Int) - 1) = l := by
    have e1 : ((s.length : Int) + 1) = ((s.length + 1 : Nat) : Int) := by omega
    have e2 : (((s.length + 1 + l.length : Nat) : Int) - (s.length : Int) - 1) =
        ((l.length : Nat) : Int) := by omega
    rw [e1, e2, mid_drop_take _ _ _ (by simp; omega), ← List.drop_drop]
    simp
  simp only [dump_range_of, c1, c2, m1, m2]
  have hb : (!(range_number symtab s).1) = true ∨ (!(range_number symtab l).1) = true := by
    rcases h with h | h
    · exact Or.inl (by rw [h]; rfl)
    · exact Or.inr (by rw [h]; rfl)
  rw [if_pos hb]
  simp

theorem foldl_invariant {α β : Type} (P : β → Prop) (f : β → α → β)
    (h : ∀ b a, P b → P (f b a)) (l : List α) (b : β) (hb : P b) : P (l.foldl f b) := by
  induction l generalizing b with
  | nil => exact hb
  | cons a as ih => exact ih _ (h b a hb)

theorem foldl_dump_range_arg (symtab : Option SymbolTable) (args : List QString)
    (run : ReporterRun) :
    (args.foldl (dump_range_arg symtab) run).r.dump_ranges =
      run.r.dump_ranges ++ args.map (fun a => (dump_range_of symtab a).1) ∧
    ∀ e, (e ∈ (args.foldl (dump_range_arg symtab) run).errors ↔
      e ∈ run.errors ∨ ∃ a ∈ args, e ∈ (dump_range_of symtab a).2) := by
  induction args generalizing run with
  | nil => simp
  | cons a as ih =>
    obtain ⟨h1, h2⟩ := ih (dump_range_arg symtab run a)
    simp only [List.foldl_cons, h1, h2]
    constructor
    · simp [dump_range_arg]
    · intro e
      simp only [dump_range_arg, List.mem_append, List.mem_cons, exists_eq_or_imp]
      tauto

/-- The reporter before the loop over the `dump-range` values (lines 232 to 249):
the dump ranges are untouched and only fail conditions have been reported. -/
theorem configure_reporter_ranges_registered (p : QCommandLineParser) (r : Reporter)
    (symtab : Option SymbolTable) :
    (configure_reporter p r symtab).r.dump_ranges =
      r.dump_ranges ++ (p.values .dump_range).map (fun a => (dump_range_of symtab a).1) ∧
    ∀ e, (e ∈ (configure_reporter p r symtab).errors →
      (∃ c, e = .unknown_fail_condition c) ∨
        ∃ a ∈ p.values .dump_range, e ∈ (dump_range_of symtab a).2) ∧
      ((∃ a ∈ p.values .dump_range, e ∈ (dump_range_of symtab a).2) →
        e ∈ (configure_reporter p r symtab).errors) := by
  let P : ReporterRun → Prop := fun run =>
    run.r.dump_ranges = r.dump_ranges ∧ ∀ e ∈ run.errors, ∃ c, e = .unknown_fail_condition c
  have hchar : ∀ (run : ReporterRun) (c : Char), P run → P (fail_match_char run c) := by
    intro run c ⟨h1, h2⟩
    unfold fail_match_char
    split_ifs
    · exact ⟨h1, h2⟩
    · refine ⟨h1, ?_⟩
      intro e he
      rcases List.mem_append.1 he with he | he
      · exact h2 e he
      · exact ⟨c, by simpa using he⟩
  have hf : ∀ (run : ReporterRun) (f : QString), P run → P (f.foldl fail_match_char run) :=
    fun run f h => foldl_invariant P fail_match_char hchar f run h
  unfold configure_reporter
  simp only []
  generalize hr3 : (if p.isSet .dump_cycles then
      { (if p.isSet .dump_cache_stats then
          { (if p.isSet .dump_registers then { r with regs_reporting := true } else r) with
            cache_stats := true }
        else (if p.isSet .dump_registers then { r with regs_reporting := true } else r)) with
        cycles_reporting := true }
    else (if p.isSet .dump_cache_stats then
          { (if p.isSet .dump_registers then { r with regs_reporting := true } else r) with
            cache_stats := true }
        else (if p.isSet .dump_registers then { r with regs_reporting := true } else r))) = r3
  have h3 : r3.dump_ranges = r.dump_ranges := by
    rw [← hr3]
    split_ifs <;> rfl
  have h4 : P ((p.values .fail_match).foldl (fun run f => f.foldl fail_match_char run) ⟨r3, []⟩) :=
    foldl_invariant P _ hf _ _ ⟨h3, by simp⟩
  generalize (p.values .fail_match).foldl (fun run f => f.foldl fail_match_char run) ⟨r3, []⟩
    = run4 at h4
  have h5 : P (if p.isSet .expect_fail = true ∧ (!p.isSet .fail_match) = true then
      { run4 with r := { run4.r with expected_fails := run4.r.expected_fails ++ [some .FailAny] } }
    else run4) := by
    split_ifs
    · exact ⟨h4.1, h4.2⟩
    · exact h4
  generalize (if p.isSet .expect_fail = true ∧ (!p.isSet .fail_match) = true then
      { run4 with r := { run4.r with expected_fails := run4.r.expected_fails ++ [some .FailAny] } }
    else run4) = run5 at h5
  obtain ⟨g1, g2⟩ := foldl_dump_range_arg symtab (p.values .dump_range) run5
  rw [g1, h5.1]
  refine ⟨rfl, fun e => ⟨fun he => ?_, fun he => (g2 e).2 (Or.inr he)⟩⟩
  rcases (g2 e).1 he with h | h
  · exact Or.inl (h5.2 e h)
  · exact Or.inr h

/-- Claim C9.  `configure_reporter` registers exactly one dump range per
`dump-range` value, in order.  For a value `START,LENGTH,FNAME` with numeric
`START` and `LENGTH` the range registered has the number before the first comma as
start, the number between the first and the second comma as length and everything
after the second comma as file name; when every value has that form no range error
is reported.  A value with fewer than two commas has "Range length/name missing"
reported, and a value whose start or length does not parse has "Range start/length
specification error" reported. -/
theorem configure_reporter_dump_range (p : QCommandLineParser) (r : Reporter)
    (symtab : Option SymbolTable) :
    (configure_reporter p r symtab).r.dump_ranges.length =
      r.dump_ranges.length + (p.values .dump_range).length ∧
    (∀ i arg, (p.values .dump_range)[i]? = some arg →
      (∀ start len fname, is_dump_range_arg arg start len fname →
        (configure_reporter p r symtab).r.dump_ranges[r.dump_ranges.length + i]? =
          some ⟨start, len, fname⟩) ∧
      (arg.count ',' < 2 →
        ReporterError.range_length_missing ∈ (configure_reporter p r symtab).errors) ∧
      (∀ s l fname, arg = s ++ ',' :: (l ++ ',' :: fname) → ',' ∉ s → ',' ∉ l →
        (range_number symtab s).1 = false ∨ (range_number symtab l).1 = false →
        ReporterError.range_specification_error ∈ (configure_reporter p r symtab).errors)) ∧
    ((∀ arg ∈ p.values .dump_range, ∃ start len fname, is_dump_range_arg arg start len fname) →
      ∀ e ∈ (configure_reporter p r symtab).errors,
        e ≠ .range_start_missing ∧ e ≠ .range_length_missing ∧
          e ≠ .range_specification_error) := by
  obtain ⟨hd, he⟩ := configure_reporter_ranges_registered p r symtab
  refine ⟨by rw [hd]; simp, ?_, ?_⟩
  · intro i arg hi
    have hmem : arg ∈ p.values .dump_range := List.getElem?_mem hi
    refine ⟨?_, ?_, ?_⟩
    · intro start len fname hform
      rw [hd, List.getElem?_append_right (Nat.le_add_right _ _), Nat.add_sub_cancel_left,
        List.getElem?_map, hi]
      simp [dump_range_of_numeric symtab arg start len fname hform]
    · intro hc
      exact (he _).2 ⟨arg, hmem, dump_range_of_few_commas symtab arg hc⟩
    · intro s l fname harg hs hl hbad
      refine (he _).2 ⟨arg, hmem, ?_⟩
      rw [harg]
      exact dump_range_of_not_parsed symtab s l fname hs hl hbad
  · intro hall e hin
    rcases (he e).1 hin with ⟨c, hc⟩ | ⟨a, ha, hea⟩
    · rw [hc]
      exact ⟨by simp, by simp, by simp⟩
    · obtain ⟨start, len, fname, hform⟩ := hall a ha
      rw [dump_range_of_numeric symtab a start len fname hform] at hea
      simp at hea

theorem configure_reporter_dump_range_witness :
    (configure_reporter
        (command_line [(.dump_range, some "0x10,8,a,b.txt".toList), (.dump_range, some "1,2".toList)])
        Reporter.initial none).r.dump_ranges[Reporter.initial.dump_ranges.length + 0]? =
      some ⟨16, 8, "a,b.txt".toList⟩ ∧
    ReporterError.range_length_missing ∈
      (configure_reporter
        (command_line [(.dump_range, some "0x10,8,a,b.txt".toList), (.dump_range, some "1,2".toList)])
        Reporter.initial none).errors ∧
    ReporterError.range_specification_error ∈
      (configure_reporter (command_line [(.dump_range, some "1,z,f".toList)])
        Reporter.initial none).errors :=
  ⟨((configure_reporter_dump_range
      (command_line [(.dump_range, some "0x10,8,a,b.txt".toList), (.dump_range, some "1,2".toList)])
      Reporter.initial none).2.1 0 "0x10,8,a,b.txt".toList (by decide)).1 16 8 "a,b.txt".toList
      ⟨"0x10".toList, "8".toList, by decide, by decide, by decide,
        ⟨by decide, by decide⟩, ⟨by decide, by decide⟩⟩,
   ((configure_reporter_dump_range
      (command_line [(.dump_range, some "0x10,8,a,b.txt".toList), (.dump_range, some "1,2".toList)])
      Reporter.initial none).2.1 1 "1,2".toList (by decide)).2.1 (by decide),
   ((configure_reporter_dump_range (command_line [(.dump_range, some "1,z,f".toList)])
      Reporter.initial none).2.1 0 "1,z,f".toList (by decide)).2.2 "1".toList "z".toList
      "f".toList (by decide) (by decide) (by decide) (Or.inr (by decide))⟩

/-! ## Loading memory ranges -/

theorem is_digit_of_facts (base : Nat) (c : Char) (h : is_digit_of base c) :
    isBlank c = false ∧ isSpace c = false ∧ c ≠ '-' ∧ c ≠ '+' ∧ c ≠ '\n' := by
  obtain ⟨d, hd, _⟩ := h
  have hn : (48 ≤ c.toNat ∧ c.toNat ≤ 57) ∨ (97 ≤ c.toNat ∧ c.toNat ≤ 122) ∨
      (65 ≤ c.toNat ∧ c.toNat ≤ 90) := by
    unfold digitValue at hd
    split_ifs at hd with h1 h2 h3
    · exact Or.inl h1
    · exact Or.inr (Or.inl h2)
    · exact Or.inr (Or.inr h3)
  have hne : ∀ k : Char, k.toNat < 48 → c ≠ k := by
    intro k hk hck
    rw [hck] at hn
    omega
  refine ⟨?_, ?_, hne '-' (by decide), hne '+' (by decide), hne '\n' (by decide)⟩
  · simp only [isBlank, Bool.or_eq_false_iff, decide_eq_false_iff_not]
    exact ⟨⟨hne ' ' (by decide), hne '\t' (by decide)⟩, hne '\n' (by decide)⟩
  · simp only [isSpace, Bool.or_eq_false_iff, beq_eq_false_iff_ne, Bool.and_eq_false_iff,
      decide_eq_false_iff_not]
    omega

theorem takeDigits_all (base : Nat) (s : List Char) (hs : ∀ c ∈ s, is_digit_of base c)
    (acc n : Nat) :
    takeDigits base s acc n =
      (s.foldl (fun acc c => acc * base + (digitValue c).getD 0) acc, n + s.length) := by
  induction s generalizing acc n with
  | nil => rfl
  | cons c cs ih =>
    obtain ⟨d, hd, hlt⟩ := hs c (List.mem_cons_self _ _)
    simp only [takeDigits, hd, hlt, if_true, List.foldl_cons, Option.getD_some,
      List.length_cons]
    rw [ih (fun x hx => hs x (List.mem_cons_of_mem _ hx))]
    congr 1
    omega

theorem strtoul_sign_digit (base : Nat) (c : Char) (cs : List Char) (h : is_digit_of base c) :
    strtoul_sign (c :: cs) = (false, 0, c :: cs) := by
  obtain ⟨_, _, h1, h2, _⟩ := is_digit_of_facts base c h
  unfold strtoul_sign
  split
  · rename_i t heq
    simp only [List.cons.injEq] at heq
    exact absurd heq.1 h1
  · rename_i t heq
    simp only [List.cons.injEq] at heq
    exact absurd heq.1 h2
  · rfl

theorem is_digit_of_zero (base : Nat) (h : 0 < base) : is_digit_of base '0' :=
  ⟨0, by decide, h⟩

theorem stoul_of_digits (c : Char) (cs : List Char) (b skip : Nat) (rest : List Char)
    (hc : is_digit_of b c)
    (hb : strtoul_base 0 (c :: cs) = (b, skip, rest)) (hr : rest ≠ [])
    (hd : ∀ d ∈ rest, is_digit_of b d) (hlen : skip + rest.length = (c :: cs).length)
    (hv : numeral_value b rest < 2 ^ 64) :
    stoul (c :: cs) 0 = .value (numeral_value b rest) (c :: cs).length := by
  obtain ⟨_, hsp, _⟩ := is_digit_of_facts b c hc
  have h1 : (c :: cs).takeWhile isSpace = [] := by simp [List.takeWhile, hsp]
  have h2 : (c :: cs).dropWhile isSpace = c :: cs := by simp [List.dropWhile, hsp]
  unfold stoul
  simp only [h1, h2, strtoul_sign_digit b c cs hc, hb, takeDigits_all b rest hd 0 0]
  have hne : ¬ (0 + rest.length = 0) := by
    cases rest with
    | nil => exact absurd rfl hr
    | cons _ _ => simp
  have hv' : ¬ (2 ^ 64 ≤ numeral_value b rest) := by omega
  unfold numeral_value at hv' ⊢
  rw [if_neg hne, if_neg hv']
  simp only [Bool.false_eq_true, if_false, List.length_nil, Nat.zero_add]
  rw [hlen]

theorem numeral_value_zero_cons (base : Nat) (cs : List Char) :
    numeral_value base ('0' :: cs) = numeral_value base cs := by
  simp only [numeral_value, List.foldl_cons]
  have : (digitValue '0').getD 0 = 0 := by decide
  rw [this]
  simp

/-- On an integer literal that fits an `unsigned long`, `std::stoul` with base 0
returns the value of the literal and reads all of it. -/
theorem stoul_literal (lit : List Char) (v : Nat) (h : is_literal lit v) (hv : v < 2 ^ 64) :
    stoul lit 0 = .value v lit.length := by
  cases h with
  | decimal c cs hc hd =>
    have hb : strtoul_base 0 (c :: cs) = (10, 0, c :: cs) := by
      unfold strtoul_base
      split
      · rename_i x t heq
        simp only [List.cons.injEq] at heq
        exact absurd heq.1 hc
      · rename_i t heq
        simp only [List.cons.injEq] at heq
        exact absurd heq.1 hc
      · rfl
    exact stoul_of_digits c cs 10 0 (c :: cs) (hd c (List.mem_cons_self _ _)) hb (by simp) hd
      (by simp) hv
  | octal cs hd =>
    have hd' : ∀ d ∈ '0' :: cs, is_digit_of 8 d := by
      intro d hmem
      rcases List.mem_cons.1 hmem with h | h
      · rw [h]; exact is_digit_of_zero 8 (by decide)
      · exact hd d h
    have hb : strtoul_base 0 ('0' :: cs) = (8, 0, '0' :: cs) := by
      cases cs with
      | nil => rfl
      | cons x t =>
        have hx : ¬ (x = 'x' ∨ x = 'X') := by
          obtain ⟨d, hdv, hlt⟩ := hd x (List.mem_cons_self _ _)
          have e1 : digitValue 'x' = some 33 := by decide
          have e2 : digitValue 'X' = some 33 := by decide
          rintro (h | h)
          · rw [h, e1] at hdv
            injection hdv with hdv
            omega
          · rw [h, e2] at hdv
            injection hdv with hdv
            omega
        simp [strtoul_base, hx]
    rw [← numeral_value_zero_cons] at hv ⊢
    exact stoul_of_digits '0' cs 8 0 ('0' :: cs) (is_digit_of_zero 8 (by decide)) hb (by simp)
      hd' (by simp) hv
  | hexadecimal x cs hx hne hd =>
    have hb : strtoul_base 0 ('0' :: x :: cs) = (16, 2, cs) := by
      simp [strtoul_base, hx]
    exact stoul_of_digits '0' (x :: cs) 16 2 cs (is_digit_of_zero 16 (by decide)) hb hne hd
      (by simp; omega) hv

theorem isBlank_of_is_blanks (s : List Char) (h : is_blanks s) : ∀ c ∈ s, isBlank c = true := by
  intro c hc
  rcases h c hc with h | h <;> rw [h] <;> decide

theorem find_first_not_of_blanks (s : List Char) (h : is_blanks s) :
    find_first_not_of s = none := by
  induction s with
  | nil => rfl
  | cons c cs ih =>
    have hc := isBlank_of_is_blanks (c :: cs) h c (List.mem_cons_self _ _)
    simp only [find_first_not_of, hc, if_true]
    rw [ih (fun d hd => h d (List.mem_cons_of_mem _ hd))]
    rfl

theorem find_first_not_of_append (before rest : List Char) (c : Char) (h : is_blanks before)
    (hc : isBlank c = false) :
    find_first_not_of (before ++ c :: rest) = some before.length := by
  induction before with
  | nil => simp [find_first_not_of, hc]
  | cons b bs ih =>
    have hb := isBlank_of_is_blanks (b :: bs) h b (List.mem_cons_self _ _)
    show find_first_not_of (b :: (bs ++ c :: rest)) = _
    simp only [find_first_not_of, hb, if_true]
    rw [ih (fun d hd => h d (List.mem_cons_of_mem _ hd))]
    rfl

theorem find_last_not_of_blanks (s : List Char) (h : is_blanks s) :
    find_last_not_of s = none := by
  unfold find_last_not_of
  rw [find_first_not_of_blanks s.reverse (fun c hc => h c (List.mem_reverse.1 hc))]
  rfl

theorem find_last_not_of_append (before init after : List Char) (e : Char)
    (h : is_blanks after) (he : isBlank e = false) :
    find_last_not_of (before ++ (init ++ [e]) ++ after) =
      some (before.length + (init ++ [e]).length - 1) := by
  unfold find_last_not_of
  have hr : (before ++ (init ++ [e]) ++ after).reverse =
      after.reverse ++ e :: (init.reverse ++ before.reverse) := by simp
  rw [hr, find_first_not_of_append after.reverse _ e
    (fun c hc => h c (List.mem_reverse.1 hc)) he]
  simp only [Option.map_some', List.length_append, List.length_reverse, List.length_cons,
    List.length_nil, Option.some.injEq]
  omega

theorem is_literal_ends (lit : List Char) (v : Nat) (h : is_literal lit v) :
    (∃ c cs, lit = c :: cs ∧ isBlank c = false) ∧
    (∃ init e, lit = init ++ [e] ∧ isBlank e = false) := by
  have key : ∀ (c : Char) (cs : List Char), isBlank c = false →
      (∀ e ∈ (c :: cs).getLast?, isBlank e = false) →
      (∃ c' cs', c :: cs = c' :: cs' ∧ isBlank c' = false) ∧
      (∃ init e, c :: cs = init ++ [e] ∧ isBlank e = false) := by
    intro c cs hc hl
    refine ⟨⟨c, cs, rfl, hc⟩, ?_⟩
    rcases List.eq_nil_or_concat (c :: cs) with h | ⟨init, e, h⟩
    · exact absurd h (by simp)
    · rw [List.concat_eq_append] at h
      refine ⟨init, e, h, hl e ?_⟩
      rw [h]
      simp
  cases h with
  | decimal c cs hc hd =>
    refine key c cs (is_digit_of_facts 10 c (hd c (List.mem_cons_self _ _))).1 ?_
    intro e he
    exact (is_digit_of_facts 10 e (hd e (List.mem_of_mem_getLast? he))).1
  | octal cs hd =>
    refine key '0' cs (by decide) ?_
    intro e he
    rcases List.mem_cons.1 (List.mem_of_mem_getLast? he) with h | h
    · rw [h]; decide
    · exact (is_digit_of_facts 8 e (hd e h)).1
  | hexadecimal x cs hx hne hd =>
    refine key '0' (x :: cs) (by decide) ?_
    intro e he
    cases cs with
    | nil => exact absurd rfl hne
    | cons y ys =>
      have : e ∈ (y :: ys).getLast? := by
        simpa [List.getLast?_cons_cons] using he
      exact (is_digit_of_facts 16 e (hd e (List.mem_of_mem_getLast? this))).1

/-- The text `load_ranges` hands to `std::stoul` for a line that holds a literal
between spaces and tabs is the literal. -/
theorem trimmed_line (before lit after : List Char) (v : Nat) (hb : is_blanks before)
    (ha : is_blanks after) (h : is_literal lit v) :
    ∃ end_pos start_pos,
      find_last_not_of (before ++ lit ++ after) = some end_pos ∧
      find_first_not_of (before ++ lit ++ after) = some start_pos ∧
      ((before ++ lit ++ after).take (end_pos + 1)).drop start_pos = lit := by
  obtain ⟨⟨c, cs, h1, hc⟩, ⟨init, e, h2, he⟩⟩ := is_literal_ends lit v h
  refine ⟨before.length + lit.length - 1, before.length, ?_, ?_, ?_⟩
  · rw [h2]
    exact find_last_not_of_append before init after e ha he
  · rw [h1, List.append_assoc]
    exact find_first_not_of_append before _ c hb hc
  · have hl : 0 < lit.length := by rw [h1]; simp
    have e1 : before.length + lit.length - 1 + 1 = (before ++ lit).length := by
      rw [List.length_append]; omega
    rw [e1, List.take_left' rfl, List.drop_left' rfl]

theorem load_lines_hold (lines : List (List Char)) (words : List Nat)
    (h : lines_hold lines words) (addr : Nat) (run : LoadRun) :
    load_lines lines addr run = { run with writes := run.writes ++ word_writes addr words } := by
  induction h generalizing addr run with
  | nil => simp [load_lines, word_writes]
  | blank line lines words hb _ ih =>
    simp only [load_lines, find_last_not_of_blanks line hb, find_first_not_of_blanks line hb]
    exact ih addr run
  | word before lit after v lines words hb ha hl hv _ ih =>
    obtain ⟨end_pos, start_pos, h1, h2, h3⟩ := trimmed_line before lit after v hb ha hl
    simp only [load_lines, h1, h2, h3, stoul_literal lit v hl hv]
    rw [ih]
    simp [word_writes]

theorem word_writes_length (addr : Nat) (words : List Nat) :
    (word_writes addr words).length = words.length := by
  induction words generalizing addr with
  | nil => rfl
  | cons v vs ih => simp [word_writes, ih]

theorem word_writes_getElem (addr : Nat) (words : List Nat) (k v : Nat) (haddr : addr < 2 ^ 64)
    (h : words[k]? = some v) :
    (word_writes addr words)[k]? = some ⟨(addr + 4 * k) % 2 ^ 64, v % 2 ^ 32, .INTERNAL⟩ := by
  induction words generalizing addr k with
  | nil => simp at h
  | cons w ws ih =>
    cases k with
    | zero =>
      simp only [List.getElem?_cons_zero, Option.some.injEq] at h
      simp only [word_writes, h, List.getElem?_cons_zero, Nat.mul_zero, Nat.add_zero,
        Nat.mod_eq_of_lt haddr]
    | succ k =>
      simp only [List.getElem?_cons_succ] at h
      simp only [word_writes, List.getElem?_cons_succ]
      rw [ih _ k (Nat.mod_lt _ (by norm_num)) h]
      congr 2
      omega

theorem toULong_lt (s : QString) (base v : Nat) (h : toULong s base = some v) : v < 2 ^ 64 := by
  unfold toULong qstrtoull at h
  simp only [] at h
  split at h
  · split_ifs at h with hlt
    simp only [Option.some.injEq] at h
    omega
  · simp at h

theorem load_ranges_single (symtab : Option SymbolTable) (files : QString → Option (List Char))
    (start_text fname : QString) (start : Nat) (content : List Char)
    (hcomma : ',' ∉ start_text) (hstart : is_numeric start_text start)
    (hfile : files fname = some content) (words : List Nat)
    (hlines : lines_hold (getlines content) words) :
    load_ranges symtab files [start_text ++ ',' :: fname] ⟨[], [], none⟩ =
      ⟨word_writes start words, [], none⟩ := by
  have c1 : indexOf (start_text ++ ',' :: fname) ',' 0 = (start_text.length : Int) :=
    indexOf_zero_first ',' start_text _ hcomma
  have m1 : mid (start_text ++ ',' :: fname) 0 (start_text.length : Int) = start_text := by
    rw [mid_zero_take _ _ (by simp)]
    simp
  have m2 : mid (start_text ++ ',' :: fname) ((start_text.length : Int) + 1) (-1) = fname := by
    have e1 : ((start_text.length : Int) + 1) = ((start_text.length + 1 : Nat) : Int) := by omega
    rw [e1, mid_rest _ _ (by simp), ← List.drop_drop]
    simp
  have n1 : ¬ ((start_text.length : Int) < 0) := by omega
  simp only [load_ranges, c1, m1, m2, range_number_numeric symtab start_text start hstart,
    hfile, n1, if_false, Bool.not_true, Bool.false_eq_true, List.append_nil, Option.map_some',
    Option.getD_some, load_lines_hold _ _ hlines, List.nil_append]

theorem getlines_line (line rest : List Char) (h : '\n' ∉ line) :
    getlines (line ++ '\n' :: rest) = line :: getlines rest := by
  induction line with
  | nil => simp [getlines]
  | cons c cs ih =>
    simp only [List.mem_cons, not_or] at h
    show getlines (c :: (cs ++ '\n' :: rest)) = _
    simp only [getlines, if_neg (Ne.symm h.1), ih h.2]

theorem is_literal_no_newline (lit : List Char) (v : Nat) (h : is_literal lit v) :
    '\n' ∉ lit := by
  cases h with
  | decimal c cs hc hd =>
    intro hm
    exact (is_digit_of_facts 10 _ (hd _ hm)).2.2.2.2 rfl
  | octal cs hd =>
    intro hm
    rcases List.mem_cons.1 hm with h | h
    · exact absurd h (by decide)
    · exact (is_digit_of_facts 8 _ (hd _ h)).2.2.2.2 rfl
  | hexadecimal x cs hx hne hd =>
    intro hm
    rcases List.mem_cons.1 hm with h | h
    · exact absurd h (by decide)
    · rcases List.mem_cons.1 h with h | h
      · rcases hx with hx | hx <;> rw [hx] at h <;> exact absurd h (by decide)
      · exact (is_digit_of_facts 16 _ (hd _ h)).2.2.2.2 rfl

theorem lines_hold_dump_text (render : Nat → List Char) (ws : List Nat)
    (h : ∀ w ∈ ws, is_literal (render w) w ∧ w < 2 ^ 32) :
    lines_hold (getlines (dump_text render ws)) ws := by
  induction ws with
  | nil => exact lines_hold.nil
  | cons w ws ih =>
    obtain ⟨hl, hw⟩ := h w (List.mem_cons_self _ _)
    simp only [dump_text]
    rw [getlines_line _ _ (is_literal_no_newline _ _ hl)]
    have := lines_hold.word [] (render w) [] w _ ws (by simp [is_blanks]) (by simp [is_blanks])
      hl (lt_trans hw (by norm_num)) (ih (fun x hx => h x (List.mem_cons_of_mem _ hx)))
    simpa using this

/-- Claim C7.  For one `load-range` value `START,FNAME` with numeric `START`:
when every line of the file is either made of spaces and tabs or one integer
literal (decimal, `0x` hexadecimal or `0`-prefixed octal, fitting an
`unsigned long`) between spaces and tabs, `load_ranges` reports no error and
writes, for every `k`, the value of the `k`-th line that holds a literal, as a
32-bit word with `INTERNAL` access effects, at the address `START + 4k` (in 64-bit
address arithmetic); the other lines write nothing and do not advance the address.
In particular a dump with one literal per line of words below `2^32` is loaded
back as the same words, in order, four bytes apart from `START`. -/
theorem load_ranges_words (symtab : Option SymbolTable) (files : QString → Option (List Char))
    (start_text fname : QString) (start : Nat)
    (hcomma : ',' ∉ start_text) (hstart : is_numeric start_text start) :
    (∀ content words, files fname = some content → lines_hold (getlines content) words →
      (load_ranges symtab files [start_text ++ ',' :: fname] ⟨[], [], none⟩).errors = [] ∧
      (load_ranges symtab files [start_text ++ ',' :: fname] ⟨[], [], none⟩).exception = none ∧
      (load_ranges symtab files [start_text ++ ',' :: fname] ⟨[], [], none⟩).writes.length =
        words.length ∧
      ∀ k v : Nat, words[k]? = some v →
        (load_ranges symtab files [start_text ++ ',' :: fname] ⟨[], [], none⟩).writes[k]? =
          some ⟨(start + 4 * k) % 2 ^ 64, v % 2 ^ 32, .INTERNAL⟩) ∧
    (∀ (render : Nat → List Char) (ws : List Nat),
      (∀ w ∈ ws, is_literal (render w) w ∧ w < 2 ^ 32) →
      files fname = some (dump_text render ws) → start + 4 * ws.length ≤ 2 ^ 64 →
      (load_ranges symtab files [start_text ++ ',' :: fname] ⟨[], [], none⟩).errors = [] ∧
      (load_ranges symtab files [start_text ++ ',' :: fname] ⟨[], [], none⟩).writes.length =
        ws.length ∧
      ∀ k w : Nat, ws[k]? = some w →
        (load_ranges symtab files [start_text ++ ',' :: fname] ⟨[], [], none⟩).writes[k]? =
          some ⟨start + 4 * k, w, .INTERNAL⟩) := by
  have hs : start < 2 ^ 64 := toULong_lt start_text 0 start hstart.2
  constructor
  · intro content words hfile hlines
    rw [load_ranges_single symtab files start_text fname start content hcomma hstart hfile
      words hlines]
    exact ⟨rfl, rfl, word_writes_length start words,
      fun k v h => word_writes_getElem start words k v hs h⟩
  · intro render ws hws hfile hfit
    rw [load_ranges_single symtab files start_text fname start _ hcomma hstart hfile
      ws (lines_hold_dump_text render ws hws)]
    refine ⟨rfl, word_writes_length start ws, ?_⟩
    intro k w h
    have hk : k < ws.length := by
      rcases Nat.lt_or_ge k ws.length with hk | hk
      · exact hk
      · rw [List.getElem?_eq_none hk] at h
        exact absurd h (by simp)
    have hw : w < 2 ^ 32 := (hws w (List.getElem?_mem h)).2
    rw [word_writes_getElem start ws k w hs h, Nat.mod_eq_of_lt hw,
      Nat.mod_eq_of_lt (by omega)]

theorem is_literal_0x10 : is_literal "0x10".toList 16 :=
  is_literal.hexadecimal 'x' "10".toList (Or.inl rfl) (by decide)
    (fun d hd => by
      rcases List.mem_cons.1 hd with h | h
      · exact ⟨1, by rw [h]; decide, by decide⟩
      · rcases List.mem_cons.1 h with h | h
        · exact ⟨0, by rw [h]; decide, by decide⟩
        · simp at h)

theorem is_literal_7 : is_literal "7".toList 7 :=
  is_literal.decimal '7' [] (by decide)
    (fun d hd => by
      rcases List.mem_cons.1 hd with h | h
      · exact ⟨7, by rw [h]; decide, by decide⟩
      · simp at h)

theorem is_literal_010 : is_literal "010".toList 8 :=
  is_literal.octal "10".toList
    (fun d hd => by
      rcases List.mem_cons.1 hd with h | h
      · exact ⟨1, by rw [h]; decide, by decide⟩
      · rcases List.mem_cons.1 h with h | h
        · exact ⟨0, by rw [h]; decide, by decide⟩
        · simp at h)

theorem load_ranges_words_witness :
    ((load_ranges none sample_files ["0x100".toList ++ ',' :: "words.txt".toList]
        ⟨[], [], none⟩).errors = [] ∧
      (load_ranges none sample_files ["0x100".toList ++ ',' :: "words.txt".toList]
        ⟨[], [], none⟩).exception = none ∧
      (load_ranges none sample_files ["0x100".toList ++ ',' :: "words.txt".toList]
        ⟨[], [], none⟩).writes.length = [16, 7, 8].length ∧
      ∀ k v : Nat, [16, 7, 8][k]? = some v →
        (load_ranges none sample_files ["0x100".toList ++ ',' :: "words.txt".toList]
          ⟨[], [], none⟩).writes[k]? = some ⟨(256 + 4 * k) % 2 ^ 64, v % 2 ^ 32, .INTERNAL⟩) ∧
    ((load_ranges none sample_dump ["0x100".toList ++ ',' :: "dump.txt".toList]
        ⟨[], [], none⟩).errors = [] ∧
      (load_ranges none sample_dump ["0x100".toList ++ ',' :: "dump.txt".toList]
        ⟨[], [], none⟩).writes.length = [16, 7].length ∧
      ∀ k w : Nat, [16, 7][k]? = some w →
        (load_ranges none sample_dump ["0x100".toList ++ ',' :: "dump.txt".toList]
          ⟨[], [], none⟩).writes[k]? = some ⟨256 + 4 * k, w, .INTERNAL⟩) :=
  ⟨(load_ranges_words none sample_files "0x100".toList "words.txt".toList 256 (by decide)
      ⟨by decide, by decide⟩).1 " 0x10 \n\n7\n010".toList [16, 7, 8] (by decide)
      (lines_hold.word " ".toList "0x10".toList " ".toList 16 _ _
        (by simp [is_blanks]) (by simp [is_blanks]) is_literal_0x10 (by norm_num)
        (lines_hold.blank [] _ _ (by simp [is_blanks])
          (lines_hold.word [] "7".toList [] 7 _ _
            (by simp [is_blanks]) (by simp [is_blanks]) is_literal_7 (by norm_num)
            (lines_hold.word [] "010".toList [] 8 _ _
              (by simp [is_blanks]) (by simp [is_blanks]) is_literal_010 (by norm_num)
              lines_hold.nil)))),
   (load_ranges_words none sample_dump "0x100".toList "dump.txt".toList 256 (by decide)
      ⟨by decide, by decide⟩).2 sample_render [16, 7]
      (fun w hw => by
        rcases List.mem_cons.1 hw with h | h
        · rw [h]; exact ⟨is_literal_0x10, by norm_num⟩
        · rcases List.mem_cons.1 h with h | h
          · rw [h]; exact ⟨is_literal_7, by norm_num⟩
          · simp at h)
      (by decide) (by norm_num)⟩

/-! ## Bounds of the container accesses -/

theorem cache_geometry_fault (conf : CacheConfig) (errors : List CacheError)
    (pieces : List QString) :
    (cache_geometry conf errors pieces).fault = none ↔ 3 ≤ pieces.length := by
  match pieces with
  | [] => simp [cache_geometry]
  | [_] => simp [cache_geometry]
  | [_, _] => simp [cache_geometry]
  | p0 :: p1 :: p2 :: rest =>
    simp only [cache_geometry, (cache_write_policy_sizes _ _ _).2.2.2, List.length_cons]
    simp

/-- The runs of `configure_cache` that stay within bounds: those on an argument
whose first field is not empty and that has three fields or more after the
optional policy name. -/
theorem configure_cache_in_bounds_iff (conf : CacheConfig) (args : List QString)
    (arg : QString) :
    (configure_cache conf (args ++ [arg])).fault = none ↔
      first_field arg ≠ [] ∧ 3 ≤ (geometry_fields arg).length := by
  rw [configure_cache_last]
  rcases hs : split arg with _ | ⟨p0, rest⟩
  · exact absurd hs (split_ne_nil arg)
  · rcases p0 with _ | ⟨c0, r0⟩
    · rw [configure_cache_empty_first conf arg rest hs]
      simp [first_field, hs]
    · rw [configure_cache_first_char conf arg c0 r0 rest hs, cache_geometry_fault,
        cache_policy_pieces]
      simp only [first_field, hs, List.headD_cons, ne_eq, not_false_eq_true, true_and,
        geometry_fields, reduceCtorEq]
      split_ifs <;> simp

/-- Claim C11, the code at the failing inputs.  On the empty argument
`configure_cache` reads `pieces.at(0).at(0)` in an empty string, on "lru" it reads
`pieces.at(0)` in the list emptied by `removeFirst`, and on "4,2" it reads
`pieces.at(2)` in a list of two; each time after the error has been reported. -/
theorem configure_cache_out_of_bounds :
    configure_cache CacheConfig.initial ["".toList] =
      ⟨{ CacheConfig.initial with enabled := true },
        [.parameters_incorrect, .policy_empty], some .first_char⟩ ∧
    configure_cache CacheConfig.initial ["lru".toList] =
      ⟨{ CacheConfig.initial with enabled := true, replacement_policy := .RP_LRU },
        [.parameters_incorrect, .parameters_incorrect_after_policy], some (.pieces_at 0)⟩ ∧
    configure_cache CacheConfig.initial ["4,2".toList] =
      ⟨{ CacheConfig.initial with enabled := true, set_count := 4, block_size := 2 },
        [.parameters_incorrect, .parameters_incorrect_after_policy], some (.pieces_at 2)⟩ := by
  decide

theorem getElem?_length_pred {α : Type} (l : List α) : l[l.length - 1]? = l.getLast? := by
  rw [List.getLast?_eq_getElem?]

/-- With as many `serial-out` values as `serial-in` values, and one at least, the
comparison of line 305 is between the last value of each list. -/
theorem serial_port_shared_same_length (serial_in serial_out : List QString)
    (hlen : serial_in.length = serial_out.length) (hne : serial_out ≠ []) :
    ∃ a b, serial_in.getLast? = some a ∧ serial_out.getLast? = some b ∧
      serial_port_shared serial_in serial_out = .ok (decide (a = b)) := by
  have h0 : serial_out.length ≠ 0 := by
    intro h
    exact hne (List.length_eq_zero.1 h)
  have hi : serial_out.length - 1 < serial_in.length := by omega
  have ho : serial_out.length - 1 < serial_out.length := by omega
  refine ⟨serial_in[serial_out.length - 1], serial_out[serial_out.length - 1], ?_, ?_, ?_⟩
  · rw [← getElem?_length_pred, hlen, List.getElem?_eq_getElem hi]
  · rw [← getElem?_length_pred, List.getElem?_eq_getElem ho]
  · simp only [serial_port_shared, ne_eq, h0, not_false_eq_true, if_true,
      List.getElem?_eq_getElem hi, List.getElem?_eq_getElem ho]

/-- Claim C12, the code at the failing inputs.  The index of line 305 is the number
of `serial-out` values less one, for both lists.  With one `serial-in` and two
`serial-out` values, `p.values("serial-in").at(1)` is outside the list.  With
`serial-in` x, a and `serial-out` x, the output shares the input although the last
values a and x differ.  With `serial-in` a, x and `serial-out` x, the output does
not share the input although both last values are x. -/
theorem configure_serial_port_wrong_index :
    configure_serial_port (fun _ _ => true)
        (command_line [(.serial_in, some "a".toList), (.serial_out, some "b".toList),
          (.serial_out, some "a".toList)]) true =
      ⟨some ("a".toList, .ReadOnly), none, [], some 1⟩ ∧
    configure_serial_port (fun _ _ => true)
        (command_line [(.serial_in, some "x".toList), (.serial_in, some "a".toList),
          (.serial_out, some "x".toList)]) true =
      ⟨some ("a".toList, .ReadWrite), some .ser_in, [], none⟩ ∧
    configure_serial_port (fun _ _ => true)
        (command_line [(.serial_in, some "a".toList), (.serial_in, some "x".toList),
          (.serial_out, some "x".toList)]) true =
      ⟨some ("x".toList, .ReadOnly), some (.file "x".toList), [], none⟩ := by
  decide

end QtRvSim
